import Mathlib

/-!
# Verification of the token codec in `src/util.ts`

Shallow embedding of the account-service token utilities:
`nintendoPasswordHash`, `nintendoBase64Encode`/`nintendoBase64Decode`,
`generateToken`, `decryptToken` and `unpackToken`.

Buffers are modelled as `List Nat` with every entry `< 256`; JavaScript
strings are modelled as lists of character codes (`List Nat`).  Fallible
operations (Node `Buffer` reads/writes out of range, cipher `final()`
padding errors, RSA decryption errors) are modelled with `Except`/`Option`:
an `Except.error`/`none` corresponds to a thrown JavaScript exception.

The cryptographic primitives the source pulls from `node:crypto` and
`node-rsa` (the AES-128 block function used by `aes-128-cbc`, RSA-OAEP,
HMAC-SHA1, SHA-256) are not code of this repository; they are abstracted
as a `CryptoPrimitives` parameter, with the properties the libraries
guarantee (block length preservation, decryption inverting encryption,
digest lengths) stated as explicit hypotheses (`GoodCrypto`).  The CBC
chaining mode, PKCS#7 padding, and base64 are implemented concretely,
matching what `crypto.createCipheriv('aes-128-cbc', …)` and
`Buffer.from(_, 'base64')` do.
-/

namespace Account

/-- Buffers are lists of byte values. -/
abbrev Bytes := List Nat

/-- All entries of a buffer are in byte range. -/
def IsBytes (l : Bytes) : Prop := ∀ x ∈ l, x < 256

instance (l : Bytes) : Decidable (IsBytes l) := List.decidableBAll _ l

/-- Errors thrown by the modelled Node APIs (`Buffer` range errors, cipher
`final()` failures, `NodeRSA.decrypt` failures). -/
inductive JsError
  | rangeError
  | cipherError
  | rsaError
  deriving DecidableEq

/-- Little-endian bytes of a 32-bit value, as written by `Buffer.writeUInt32LE`. -/
def u32le (n : Nat) : Bytes :=
  [n % 256, n / 256 % 256, n / 65536 % 256, n / 16777216 % 256]

/-- Little-endian bytes of a 64-bit value, as written by `Buffer.writeBigUInt64LE`. -/
def u64le (n : Nat) : Bytes :=
  [n % 256, n / 256 % 256, n / 65536 % 256, n / 16777216 % 256,
   n / 4294967296 % 256, n / 1099511627776 % 256,
   n / 281474976710656 % 256, n / 72057594037927936 % 256]

/-- Overwrite `vals.length` entries of `buf` starting at `off`. -/
def writeBytes (buf : Bytes) (off : Nat) (vals : Bytes) : Bytes :=
  buf.take off ++ vals ++ buf.drop (off + vals.length)

/-- `Buffer.writeUInt8`: throws a range error when the value or offset is out of range. -/
def writeUInt8 (buf : Bytes) (v off : Nat) : Except JsError Bytes :=
  if v < 256 ∧ off + 1 ≤ buf.length then .ok (writeBytes buf off [v]) else .error .rangeError

/-- `Buffer.writeUInt32LE`. -/
def writeUInt32LE (buf : Bytes) (v off : Nat) : Except JsError Bytes :=
  if v < 4294967296 ∧ off + 4 ≤ buf.length then .ok (writeBytes buf off (u32le v))
  else .error .rangeError

/-- `Buffer.writeBigUInt64LE`. -/
def writeBigUInt64LE (buf : Bytes) (v off : Nat) : Except JsError Bytes :=
  if v < 18446744073709551616 ∧ off + 8 ≤ buf.length then .ok (writeBytes buf off (u64le v))
  else .error .rangeError

/-- `Buffer.readUInt8`: `none` models the thrown out-of-range error. -/
def readUInt8 (buf : Bytes) (off : Nat) : Option Nat :=
  if off + 1 ≤ buf.length then some (buf.getD off 0) else none

/-- `Buffer.readUInt32LE`. -/
def readUInt32LE (buf : Bytes) (off : Nat) : Option Nat :=
  if off + 4 ≤ buf.length then
    some (buf.getD off 0 + 256 * buf.getD (off + 1) 0 + 65536 * buf.getD (off + 2) 0 +
      16777216 * buf.getD (off + 3) 0)
  else none

/-- `Buffer.readBigUInt64LE`. -/
def readBigUInt64LE (buf : Bytes) (off : Nat) : Option Nat :=
  if off + 8 ≤ buf.length then
    some (buf.getD off 0 + 256 * buf.getD (off + 1) 0 + 65536 * buf.getD (off + 2) 0 +
      16777216 * buf.getD (off + 3) 0 + 4294967296 * buf.getD (off + 4) 0 +
      1099511627776 * buf.getD (off + 5) 0 + 281474976710656 * buf.getD (off + 6) 0 +
      72057594037927936 * buf.getD (off + 7) 0)
  else none

/-- `Buffer.readInt8`: the byte reinterpreted as a signed value. -/
def readInt8 (buf : Bytes) (off : Nat) : Option Int :=
  if off + 1 ≤ buf.length then
    some (if buf.getD off 0 < 128 then (buf.getD off 0 : Int) else (buf.getD off 0 : Int) - 256)
  else none

/-- Clamp a possibly negative JS index into `[0, len]`
(`TypedArray.prototype.subarray` semantics: negative indices count from the end). -/
def clampIndex (len : Nat) (i : Int) : Nat :=
  if i < 0 then ((len : Int) + i).toNat else min i.toNat len

/-- `buf.subarray(start, stop)`. -/
def subarray (buf : Bytes) (start stop : Int) : Bytes :=
  (buf.take (clampIndex buf.length stop)).drop (clampIndex buf.length start)

/-- `buf.subarray(start)` — to the end of the buffer. -/
def subarrayEnd (buf : Bytes) (start : Int) : Bytes :=
  buf.drop (clampIndex buf.length start)

/-- Pointwise XOR of two equal-length buffers. -/
def xorBytes (a b : Bytes) : Bytes := List.zipWith (fun x y => x ^^^ y) a b

/-! ## Base64 (`Buffer.prototype.toString('base64')` / `Buffer.from(_, 'base64')`)

Character codes: `'A'` = 65, `'a'` = 97, `'0'` = 48, `'+'` = 43, `'/'` = 47,
`'='` = 61. -/

/-- The base64 digit for a 6-bit value, as an ASCII code. -/
def b64Char (v : Nat) : Nat :=
  if v < 26 then 65 + v
  else if v < 52 then 97 + (v - 26)
  else if v < 62 then 48 + (v - 52)
  else if v = 62 then 43
  else 47

/-- Standard base64 encoding of a byte list, as a list of ASCII codes. -/
def b64encode : Bytes → List Nat
  | a :: b :: c :: rest =>
      b64Char (a / 4) :: b64Char (a % 4 * 16 + b / 16) ::
        b64Char (b % 16 * 4 + c / 64) :: b64Char (c % 64) :: b64encode rest
  | [a, b] => [b64Char (a / 4), b64Char (a % 4 * 16 + b / 16), b64Char (b % 16 * 4), 61]
  | [a] => [b64Char (a / 4), b64Char (a % 4 * 16), 61, 61]
  | [] => []

/-- The 6-bit value of a base64 digit; `none` for any other character code.
Node's base64 decoder skips characters outside the alphabet (including `'='`). -/
def b64CharVal (c : Nat) : Option Nat :=
  if 65 ≤ c ∧ c ≤ 90 then some (c - 65)
  else if 97 ≤ c ∧ c ≤ 122 then some (c - 97 + 26)
  else if 48 ≤ c ∧ c ≤ 57 then some (c - 48 + 52)
  else if c = 43 then some 62
  else if c = 47 then some 63
  else none

/-- Regroup a list of 6-bit values into bytes; a trailing lone value is
dropped, as Node's base64 decoder does. -/
def b64regroup : List Nat → Bytes
  | a :: b :: c :: d :: rest =>
      (a * 4 + b / 16) :: (b % 16 * 16 + c / 4) :: (c % 4 * 64 + d) :: b64regroup rest
  | [a, b, c] => [a * 4 + b / 16, b % 16 * 16 + c / 4]
  | [a, b] => [a * 4 + b / 16]
  | _ => []

/-- `Buffer.from(s, 'base64')` on a list of character codes. -/
def b64decode (s : List Nat) : Bytes := b64regroup (s.filterMap b64CharVal)

theorem b64CharVal_b64Char (v : Nat) (h : v < 64) : b64CharVal (b64Char v) = some v := by
  unfold b64Char b64CharVal
  split_ifs <;> first | omega | (simp only [Option.some.injEq]; omega)

theorem b64CharVal_eq (c : Nat) : b64CharVal c = none ∨ ∃ v, v < 64 ∧ b64CharVal c = some v := by
  unfold b64CharVal
  split_ifs <;> simp <;> omega

theorem b64decode_b64encode (l : Bytes) (h : IsBytes l) : b64decode (b64encode l) = l := by
  induction l using b64encode.induct with
  | case1 a b c rest ih =>
    have ha : a < 256 := h a (by simp)
    have hb : b < 256 := h b (by simp)
    have hc : c < 256 := h c (by simp)
    have hrest : IsBytes rest := fun x hx => h x (by simp [hx])
    have ihr := ih hrest
    unfold b64decode at ihr ⊢
    rw [b64encode]
    simp only [List.filterMap_cons,
      b64CharVal_b64Char (a / 4) (by omega),
      b64CharVal_b64Char (a % 4 * 16 + b / 16) (by omega),
      b64CharVal_b64Char (b % 16 * 4 + c / 64) (by omega),
      b64CharVal_b64Char (c % 64) (by omega)]
    rw [b64regroup]
    rw [ihr]
    have e1 : a / 4 * 4 + (a % 4 * 16 + b / 16) / 16 = a := by omega
    have e2 : (a % 4 * 16 + b / 16) % 16 * 16 + (b % 16 * 4 + c / 64) / 4 = b := by omega
    have e3 : (b % 16 * 4 + c / 64) % 4 * 64 + c % 64 = c := by omega
    rw [e1, e2, e3]
  | case2 a b =>
    have ha : a < 256 := h a (by simp)
    have hb : b < 256 := h b (by simp)
    unfold b64decode
    rw [b64encode]
    simp only [List.filterMap_cons,
      b64CharVal_b64Char (a / 4) (by omega),
      b64CharVal_b64Char (a % 4 * 16 + b / 16) (by omega),
      b64CharVal_b64Char (b % 16 * 4) (by omega)]
    norm_num [b64CharVal]
    rw [b64regroup]
    have e1 : a / 4 * 4 + (a % 4 * 16 + b / 16) / 16 = a := by omega
    have e2 : (a % 4 * 16 + b / 16) % 16 * 16 + b % 16 * 4 / 4 = b := by omega
    rw [e1, e2]
  | case3 a =>
    have ha : a < 256 := h a (by simp)
    unfold b64decode
    rw [b64encode]
    simp only [List.filterMap_cons,
      b64CharVal_b64Char (a / 4) (by omega),
      b64CharVal_b64Char (a % 4 * 16) (by omega)]
    norm_num [b64CharVal]
    rw [b64regroup]
    have e1 : a / 4 * 4 + a % 4 * 16 / 16 = a := by omega
    rw [e1]
  | case4 => rfl

/-! ## NintendoBase64 -/

/-- The substitution performed by
`encoded.replaceAll('+', '.').replaceAll('/', '-').replaceAll('=', '*')`
(`'.'` = 46, `'-'` = 45, `'*'` = 42). -/
def nintendoSubst (c : Nat) : Nat :=
  if c = 43 then 46 else if c = 47 then 45 else if c = 61 then 42 else c

/-- The substitution performed by
`encoded.replaceAll('.', '+').replaceAll('-', '/').replaceAll('*', '=')`. -/
def nintendoUnsubst (c : Nat) : Nat :=
  if c = 46 then 43 else if c = 45 then 47 else if c = 42 then 61 else c

/-- `nintendoBase64Encode` from `src/util.ts`: standard base64, then the
alphabet substitution. -/
def nintendoBase64Encode (decoded : Bytes) : List Nat :=
  (b64encode decoded).map nintendoSubst

/-- `nintendoBase64Decode` from `src/util.ts`: the inverse substitution, then
standard base64 decoding. -/
def nintendoBase64Decode (encoded : List Nat) : Bytes :=
  b64decode (encoded.map nintendoUnsubst)

theorem b64Char_range (v : Nat) :
    b64Char v = 43 ∨ b64Char v = 47 ∨ (48 ≤ b64Char v ∧ b64Char v ≤ 57) ∨
      (65 ≤ b64Char v ∧ b64Char v ≤ 90) ∨ (97 ≤ b64Char v ∧ b64Char v ≤ 122) := by
  unfold b64Char
  split_ifs <;> omega

theorem nintendoUnsubst_nintendoSubst_b64Char (v : Nat) :
    nintendoUnsubst (nintendoSubst (b64Char v)) = b64Char v := by
  have h := b64Char_range v
  generalize b64Char v = c at h ⊢
  unfold nintendoSubst nintendoUnsubst
  split_ifs <;> omega

theorem b64encode_chars (l : Bytes) (c : Nat) (hc : c ∈ b64encode l) :
    c = 61 ∨ ∃ v, c = b64Char v := by
  induction l using b64encode.induct with
  | case1 a b cc rest ih =>
    rw [b64encode] at hc
    simp only [List.mem_cons] at hc
    rcases hc with h | h | h | h | h
    · exact Or.inr ⟨_, h⟩
    · exact Or.inr ⟨_, h⟩
    · exact Or.inr ⟨_, h⟩
    · exact Or.inr ⟨_, h⟩
    · exact ih h
  | case2 a b =>
    rw [b64encode] at hc
    simp only [List.mem_cons, List.not_mem_nil, or_false] at hc
    rcases hc with h | h | h | h
    · exact Or.inr ⟨_, h⟩
    · exact Or.inr ⟨_, h⟩
    · exact Or.inr ⟨_, h⟩
    · exact Or.inl h
  | case3 a =>
    rw [b64encode] at hc
    simp only [List.mem_cons, List.not_mem_nil, or_false] at hc
    rcases hc with h | h | h | h
    · exact Or.inr ⟨_, h⟩
    · exact Or.inr ⟨_, h⟩
    · exact Or.inl h
    · exact Or.inl h
  | case4 => simp [b64encode] at hc

theorem nintendoBase64Decode_nintendoBase64Encode (b : Bytes) (h : IsBytes b) :
    nintendoBase64Decode (nintendoBase64Encode b) = b := by
  unfold nintendoBase64Decode nintendoBase64Encode
  rw [List.map_map]
  have hmap : (b64encode b).map (nintendoUnsubst ∘ nintendoSubst) = b64encode b := by
    have h2 : (b64encode b).map (nintendoUnsubst ∘ nintendoSubst) = (b64encode b).map id := by
      apply List.map_congr_left
      intro c hc
      rcases b64encode_chars b c hc with rfl | ⟨v, rfl⟩
      · decide
      · exact nintendoUnsubst_nintendoSubst_b64Char v
    rw [h2, List.map_id]
  rw [hmap, b64decode_b64encode b h]

/-! ## PKCS#7 padding and AES-128-CBC chaining -/

/-- PKCS#7 padding to a 16-byte block boundary, as applied by
`crypto.createCipheriv('aes-128-cbc', …)`. -/
def pkcs7pad (l : Bytes) : Bytes :=
  l ++ List.replicate (16 - l.length % 16) (16 - l.length % 16)

/-- PKCS#7 unpadding; `none` models the padding error thrown by
`decipher.final()`. -/
def pkcs7unpad (l : Bytes) : Option Bytes :=
  match l.getLast? with
  | none => none
  | some k =>
      if 1 ≤ k ∧ k ≤ 16 ∧ k ≤ l.length ∧ (l.drop (l.length - k)).all (fun x => x = k) then
        some (l.take (l.length - k))
      else none

/-- Split a buffer into 16-byte chunks (structural recursion over a fuel
bound, so the definition evaluates by kernel reduction). -/
def chunks16Aux : Nat → Bytes → List Bytes
  | _, [] => []
  | 0, _ :: _ => []
  | fuel + 1, x :: xs => ((x :: xs).take 16) :: chunks16Aux fuel ((x :: xs).drop 16)

/-- Split a buffer into 16-byte chunks. -/
def chunks16 (l : Bytes) : List Bytes := chunks16Aux l.length l

/-- The primitives `src/util.ts` pulls from `node:crypto` / `node-rsa`,
abstracted: the AES-128 block function pair behind `'aes-128-cbc'`,
RSA-OAEP with SHA-256 behind `NodeRSA.encrypt`/`decrypt` (keyed by the PEM
bytes), HMAC-SHA1, and SHA-256. -/
structure CryptoPrimitives where
  encBlock : Bytes → Bytes → Bytes
  decBlock : Bytes → Bytes → Bytes
  rsaEncrypt : Bytes → Bytes → Bytes
  rsaDecrypt : Bytes → Bytes → Option Bytes
  hmacSha1 : Bytes → Bytes → Bytes
  sha256 : Bytes → Bytes

/-- CBC encryption chaining over 16-byte blocks. -/
def cbcEncryptBlocks (C : CryptoPrimitives) (key : Bytes) : Bytes → List Bytes → Bytes
  | _, [] => []
  | prev, b :: bs =>
      C.encBlock key (xorBytes prev b) ++
        cbcEncryptBlocks C key (C.encBlock key (xorBytes prev b)) bs

/-- CBC decryption chaining over 16-byte blocks. -/
def cbcDecryptBlocks (C : CryptoPrimitives) (key : Bytes) : Bytes → List Bytes → Bytes
  | _, [] => []
  | prev, b :: bs => xorBytes (C.decBlock key b) prev ++ cbcDecryptBlocks C key b bs

/-- `crypto.createCipheriv('aes-128-cbc', key, iv)` + `update`/`final`:
pad, then CBC-encrypt.  `none` models the error thrown for a key or IV of
the wrong length. -/
def cbcEncrypt (C : CryptoPrimitives) (key iv data : Bytes) : Option Bytes :=
  if key.length = 16 ∧ iv.length = 16 then
    some (cbcEncryptBlocks C key iv (chunks16 (pkcs7pad data)))
  else none

/-- `crypto.createDecipheriv('aes-128-cbc', key, iv)` + `update`/`final`:
CBC-decrypt, then unpad.  `none` models the error thrown for a bad key/IV
length, a ciphertext that is not a whole number of blocks, or bad padding. -/
def cbcDecrypt (C : CryptoPrimitives) (key iv ct : Bytes) : Option Bytes :=
  if key.length = 16 ∧ iv.length = 16 ∧ ct.length % 16 = 0 then
    pkcs7unpad (cbcDecryptBlocks C key iv (chunks16 ct))
  else none

/-- The facts about the library primitives that the verification relies on:
the block functions are a permutation pair on 16-byte blocks, RSA-OAEP under
a matching key pair decrypts what it encrypts and (1024-bit modulus)
produces 128-byte ciphertexts, and HMAC-SHA1 yields 20-byte digests. -/
structure GoodCrypto (C : CryptoPrimitives) (pub priv : Bytes) : Prop where
  decBlock_encBlock : ∀ k b, b.length = 16 → C.decBlock k (C.encBlock k b) = b
  encBlock_decBlock : ∀ k b, b.length = 16 → C.encBlock k (C.decBlock k b) = b
  encBlock_length : ∀ k b, b.length = 16 → (C.encBlock k b).length = 16
  decBlock_length : ∀ k b, b.length = 16 → (C.decBlock k b).length = 16
  encBlock_bytes : ∀ k b, IsBytes b → IsBytes (C.encBlock k b)
  rsa_roundtrip : ∀ d, d.length = 16 → IsBytes d → C.rsaDecrypt priv (C.rsaEncrypt pub d) = some d
  rsa_length : ∀ d, d.length = 16 → (C.rsaEncrypt pub d).length = 128
  rsa_bytes : ∀ d, IsBytes (C.rsaEncrypt pub d)
  hmac_length : ∀ s m, (C.hmacSha1 s m).length = 20
  hmac_bytes : ∀ s m, IsBytes (C.hmacSha1 s m)

/-! ## Data model -/

/-- `CryptoOptions`: RSA public key (PEM bytes) and HMAC secret. -/
structure CryptoOptions where
  public_key : Bytes
  hmac_secret : Bytes

/-- `TokenOptions`: the field set handed to `generateToken`; `access_level`
and `title_id` are optional in the TypeScript type. -/
structure TokenOptions where
  system_type : Nat
  token_type : Nat
  pid : Nat
  access_level : Option Nat
  title_id : Option Nat
  expire_time : Nat
  deriving DecidableEq

/-- `Token`: the field set returned by `unpackToken`; short tokens carry no
`access_level`/`title_id`. -/
structure Token where
  system_type : Nat
  token_type : Nat
  pid : Nat
  access_level : Option Nat
  title_id : Option Nat
  expire_time : Nat
  deriving DecidableEq

/-- JavaScript falsiness of an optional numeric field: `undefined`, `0` and
`0n` are falsy (`!tokenOptions.access_level`). -/
def jsFalsy : Option Nat → Bool
  | none => true
  | some n => n == 0

/-- `~~((encryptedKey.length - 8) * Math.random())`, with `r` the
`Math.random()` draw, a rational in `[0, 1)` (on which JS truncation agrees
with `Int.floor`). -/
def randomPoint (len : Nat) (r : ℚ) : Int := ⌊((len : ℚ) - 8) * r⌋

/-- Storing a JS number into a `Buffer` cell (`Buffer.from([point1, point2])`)
keeps its value modulo 256. -/
def intToByte (i : Int) : Nat := (i % 256).toNat

/-- The 23-byte long-token payload (`dataBuffer` in `generateToken`). -/
def longDataBuffer (system_type token_type pid access_level title_id expire_time : Nat) :
    Except JsError Bytes := do
  let b1 ← writeUInt8 (List.replicate 23 0) system_type 0
  let b2 ← writeUInt8 b1 token_type 1
  let b3 ← writeUInt32LE b2 pid 2
  let b4 ← writeUInt8 b3 access_level 6
  let b5 ← writeBigUInt64LE b4 title_id 7
  writeBigUInt64LE b5 expire_time 15

/-- The 14-byte short-token payload (`dataBuffer` in `generateToken`). -/
def shortDataBuffer (system_type token_type pid expire_time : Nat) :
    Except JsError Bytes := do
  let b1 ← writeUInt8 (List.replicate 14 0) system_type 0
  let b2 ← writeUInt8 b1 token_type 1
  let b3 ← writeUInt32LE b2 pid 2
  writeBigUInt64LE b3 expire_time 6

/-- `generateToken` from `src/util.ts`.  The extra parameters stand for the
ambient effects: `aesKey` is `getServiceAESKey('account', 'hex')`, `rkey`
the `crypto.randomBytes(16)` draw, `r1`/`r2` the two `Math.random()` draws.
The result is `some` of the base64 string (character codes), or `none` for
the source's `null`. -/
def generateToken (C : CryptoPrimitives) (aesKey rkey : Bytes) (r1 r2 : ℚ)
    (cryptoOptions : Option CryptoOptions) (tokenOptions : TokenOptions) :
    Except JsError (Option (List Nat)) :=
  match cryptoOptions with
  | none => do
      let dataBuffer ← shortDataBuffer tokenOptions.system_type tokenOptions.token_type
        tokenOptions.pid tokenOptions.expire_time
      match cbcEncrypt C aesKey (List.replicate 16 0) dataBuffer with
      | none => .error .cipherError
      | some encryptedBody => .ok (some (b64encode encryptedBody))
  | some co =>
      if jsFalsy tokenOptions.access_level || jsFalsy tokenOptions.title_id then .ok none
      else do
        let dataBuffer ← longDataBuffer tokenOptions.system_type tokenOptions.token_type
          tokenOptions.pid (tokenOptions.access_level.getD 0) (tokenOptions.title_id.getD 0)
          tokenOptions.expire_time
        let signature := C.hmacSha1 co.hmac_secret dataBuffer
        let encryptedKey := C.rsaEncrypt co.public_key rkey
        let point1 := randomPoint encryptedKey.length r1
        let point2 := randomPoint encryptedKey.length r2
        let iv := subarray encryptedKey point1 (point1 + 8) ++
          subarray encryptedKey point2 (point2 + 8)
        match cbcEncrypt C rkey iv dataBuffer with
        | none => .error .cipherError
        | some encryptedBody =>
            .ok (some (b64encode (encryptedKey ++ [intToByte point1, intToByte point2] ++
              signature ++ encryptedBody)))

/-- `decryptToken` from `src/util.ts`.  `aesKey`, `privKey`, `secretKey`
stand for the service keys pulled from the cache.  An `Except.error` models
a thrown exception; the `.ok []` of the signature-mismatch branch is the
source's `return Buffer.alloc(0)`. -/
def decryptToken (C : CryptoPrimitives) (aesKey privKey secretKey : Bytes)
    (token : Bytes) : Except JsError Bytes :=
  if token.length ≤ 32 then
    match cbcDecrypt C aesKey (List.replicate 16 0) token with
    | none => .error .cipherError
    | some decryptedBody => .ok decryptedBody
  else
    let cryptoConfig := subarray token 0 130
    let encryptedAESKey := subarray cryptoConfig 0 128
    match readInt8 cryptoConfig 128, readInt8 cryptoConfig 129 with
    | some point1, some point2 =>
        let iv := subarray encryptedAESKey point1 (point1 + 8) ++
          subarray encryptedAESKey point2 (point2 + 8)
        match C.rsaDecrypt privKey encryptedAESKey with
        | none => .error .rsaError
        | some decryptedAESKey =>
            match cbcDecrypt C decryptedAESKey iv (subarrayEnd token 150) with
            | none => .error .cipherError
            | some decryptedBody =>
                if subarray token 130 150 = C.hmacSha1 secretKey decryptedBody then
                  .ok decryptedBody
                else .ok []
    | _, _ => .error .rangeError

/-- `unpackToken` from `src/util.ts`. -/
def unpackToken (token : Bytes) : Except JsError Token :=
  if token.length ≤ 14 then
    match readUInt8 token 0, readUInt8 token 1, readUInt32LE token 2,
        readBigUInt64LE token 6 with
    | some st, some tt, some pid, some exp => .ok ⟨st, tt, pid, none, none, exp⟩
    | _, _, _, _ => .error .rangeError
  else
    match readUInt8 token 0, readUInt8 token 1, readUInt32LE token 2, readUInt8 token 6,
        readBigUInt64LE token 7, readBigUInt64LE token 15 with
    | some st, some tt, some pid, some al, some tid, some exp =>
        .ok ⟨st, tt, pid, some al, some tid, exp⟩
    | _, _, _, _, _, _ => .error .rangeError

/-- The decode pipeline: `unpackToken(await decryptToken(token))`. -/
def decodePipeline (C : CryptoPrimitives) (aesKey privKey secretKey : Bytes)
    (token : Bytes) : Except JsError Token :=
  decryptToken C aesKey privKey secretKey token >>= unpackToken

/-! ## PasswordHasher -/

/-- Lowercase hex digit (`'0'` = 48, `'a'` = 97). -/
def hexDigit (n : Nat) : Nat := if n < 10 then 48 + n else 87 + n

/-- `digest().toString('hex')`: two lowercase hex digits per byte. -/
def toHex (l : Bytes) : List Nat :=
  (l.map (fun b => [hexDigit (b / 16), hexDigit (b % 16)])).flatten

/-- UTF-8 encoding of one Unicode code point. -/
def utf8Char (c : Nat) : Bytes :=
  if c < 128 then [c]
  else if c < 2048 then [192 + c / 64, 128 + c % 64]
  else if c < 65536 then [224 + c / 4096, 128 + c / 64 % 64, 128 + c % 64]
  else [240 + c / 262144, 128 + c / 4096 % 64, 128 + c / 64 % 64, 128 + c % 64]

/-- `Buffer.from(password)`: the UTF-8 bytes of a string given as a list of
code points. -/
def utf8Encode (s : List Nat) : Bytes := (s.map utf8Char).flatten

/-- `nintendoPasswordHash` from `src/util.ts`; the marker constant
`'\x02\x65\x43\x46'` is the byte list `[2, 101, 67, 70]`. -/
def nintendoPasswordHash (C : CryptoPrimitives) (password : List Nat) (pid : Nat) :
    Except JsError (List Nat) := do
  let pidBuffer ← writeUInt32LE (List.replicate 4 0) pid 0
  .ok (toHex (C.sha256 (pidBuffer ++ [2, 101, 67, 70] ++ utf8Encode password)))

/-- A degenerate instance of the primitives satisfying `GoodCrypto`
(identity block function, truncating RSA), used to evaluate the codec on
concrete inputs. -/
def modelCrypto : CryptoPrimitives where
  encBlock _ b := b
  decBlock _ b := b
  rsaEncrypt _ d := (d.take 16).map (· % 256) ++ List.replicate 112 0
  rsaDecrypt _ c := some (c.take 16)
  hmacSha1 s m := List.replicate 20 ((s.sum + m.sum) % 256)
  sha256 m := List.replicate 32 (m.sum % 256)

/-! ## Byte-level lemmas -/

theorem xorByte {a b : Nat} (ha : a < 256) (hb : b < 256) : a ^^^ b < 256 := by
  have h : a ^^^ b < 2 ^ 8 := Nat.xor_lt_two_pow (by simpa using ha) (by simpa using hb)
  simpa using h

theorem getLast?_replicate (k v : Nat) (h : 1 ≤ k) :
    (List.replicate k v).getLast? = some v := by
  cases k with
  | zero => omega
  | succ n => rw [List.replicate_succ', List.getLast?_concat]

theorem isBytes_append {a b : Bytes} (ha : IsBytes a) (hb : IsBytes b) : IsBytes (a ++ b) := by
  intro x hx
  rcases List.mem_append.mp hx with h | h
  · exact ha x h
  · exact hb x h

theorem isBytes_replicate (n v : Nat) (h : v < 256) : IsBytes (List.replicate n v) := by
  intro x hx
  rw [List.eq_of_mem_replicate hx]
  exact h

theorem u32le_isBytes (n : Nat) : IsBytes (u32le n) := by
  intro x hx
  simp [u32le] at hx
  rcases hx with h | h | h | h <;> omega

theorem u64le_isBytes (n : Nat) : IsBytes (u64le n) := by
  intro x hx
  simp [u64le] at hx
  rcases hx with h | h | h | h | h | h | h | h <;> omega

theorem xorBytes_length (a b : Bytes) : (xorBytes a b).length = min a.length b.length := by
  simp [xorBytes]

theorem xorBytes_isBytes : ∀ (a b : Bytes), IsBytes a → IsBytes b → IsBytes (xorBytes a b)
  | [], _, _, _ => by simp [xorBytes, IsBytes]
  | _ :: _, [], _, _ => by simp [xorBytes, IsBytes]
  | x :: a, y :: b, ha, hb => by
    intro z hz
    simp only [xorBytes, List.zipWith_cons_cons, List.mem_cons] at hz
    rcases hz with rfl | hz
    · exact xorByte (ha x (by simp)) (hb y (by simp))
    · exact xorBytes_isBytes a b (fun u hu => ha u (by simp [hu]))
        (fun u hu => hb u (by simp [hu])) z hz

theorem xorBytes_cancel1 : ∀ (a b : Bytes), a.length = b.length →
    xorBytes (xorBytes a b) a = b
  | [], [], _ => rfl
  | [], _ :: _, h => by simp at h
  | _ :: _, [], h => by simp at h
  | x :: a, y :: b, h => by
    have ih := xorBytes_cancel1 a b (by simpa using h)
    simp only [xorBytes, List.zipWith_cons_cons] at ih ⊢
    rw [Nat.xor_comm x y, Nat.xor_cancel_right, ih]

theorem xorBytes_cancel2 : ∀ (a b : Bytes), a.length = b.length →
    xorBytes a (xorBytes b a) = b
  | [], [], _ => rfl
  | [], _ :: _, h => by simp at h
  | _ :: _, [], h => by simp at h
  | x :: a, y :: b, h => by
    have ih := xorBytes_cancel2 a b (by simpa using h)
    simp only [xorBytes, List.zipWith_cons_cons] at ih ⊢
    rw [Nat.xor_comm y x, Nat.xor_cancel_left, ih]

/-! ## Padding lemmas -/

theorem pkcs7pad_length (l : Bytes) : (pkcs7pad l).length = l.length + (16 - l.length % 16) := by
  simp [pkcs7pad]

theorem pkcs7pad_length_mod (l : Bytes) : (pkcs7pad l).length % 16 = 0 := by
  simp [pkcs7pad]
  omega

theorem pkcs7pad_isBytes {l : Bytes} (h : IsBytes l) : IsBytes (pkcs7pad l) :=
  isBytes_append h (isBytes_replicate _ _ (by omega))

theorem pkcs7unpad_pkcs7pad (l : Bytes) : pkcs7unpad (pkcs7pad l) = some l := by
  have hk1 : 1 ≤ 16 - l.length % 16 := by omega
  have hlast : (pkcs7pad l).getLast? = some (16 - l.length % 16) := by
    unfold pkcs7pad
    rw [List.getLast?_append_of_ne_nil _ (List.ne_nil_of_length_pos (by simp [hk1]; omega))]
    exact getLast?_replicate _ _ hk1
  have hlen : (pkcs7pad l).length = l.length + (16 - l.length % 16) := pkcs7pad_length l
  have hsub : (pkcs7pad l).length - (16 - l.length % 16) = l.length := by omega
  have hdrop : (pkcs7pad l).drop ((pkcs7pad l).length - (16 - l.length % 16)) =
      List.replicate (16 - l.length % 16) (16 - l.length % 16) := by
    rw [hsub]
    unfold pkcs7pad
    exact List.drop_left' rfl
  have htake : (pkcs7pad l).take ((pkcs7pad l).length - (16 - l.length % 16)) = l := by
    rw [hsub]
    unfold pkcs7pad
    exact List.take_left' rfl
  unfold pkcs7unpad
  rw [hlast]
  dsimp only
  rw [if_pos]
  · rw [htake]
  · refine ⟨hk1, by omega, by omega, ?_⟩
    rw [hdrop]
    simp [List.all_eq_true]

theorem pkcs7unpad_eq_pad (l p : Bytes) (hmod : l.length % 16 = 0)
    (h : pkcs7unpad l = some p) : l = pkcs7pad p := by
  unfold pkcs7unpad at h
  cases hl : l.getLast? with
  | none => rw [hl] at h; simp at h
  | some k =>
    rw [hl] at h
    dsimp only at h
    by_cases hcond : 1 ≤ k ∧ k ≤ 16 ∧ k ≤ l.length ∧
        ((l.drop (l.length - k)).all (fun x => decide (x = k))) = true
    · rw [if_pos hcond] at h
      obtain ⟨hk1, hk16, hkl, hall⟩ := hcond
      have hp : p = l.take (l.length - k) := (Option.some.inj h).symm
      have hdropRep : l.drop (l.length - k) = List.replicate k k := by
        apply List.eq_replicate_iff.mpr
        constructor
        · simp [List.length_drop]
          omega
        · intro x hx
          exact of_decide_eq_true (List.all_eq_true.mp hall x hx)
      have hplen : p.length = l.length - k := by
        rw [hp]
        simp [List.length_take]
      have hkval : 16 - p.length % 16 = k := by omega
      have hsplit : l = l.take (l.length - k) ++ l.drop (l.length - k) :=
        (List.take_append_drop _ l).symm
      rw [hsplit, hdropRep, ← hp]
      unfold pkcs7pad
      rw [hkval]
    · rw [if_neg hcond] at h
      simp at h

/-! ## Chunking lemmas -/

theorem chunks16Aux_congr (f1 : Nat) : ∀ (f2 : Nat) (l : Bytes), l.length ≤ f1 →
    l.length ≤ f2 → chunks16Aux f1 l = chunks16Aux f2 l := by
  induction f1 with
  | zero =>
    intro f2 l h1 _
    have hl : l = [] := List.eq_nil_of_length_eq_zero (by omega)
    subst hl
    cases f2 <;> rfl
  | succ n ih =>
    intro f2 l h1 h2
    cases l with
    | nil => cases f2 <;> rfl
    | cons x xs =>
      cases f2 with
      | zero => simp at h2
      | succ m =>
        simp only [chunks16Aux]
        congr 1
        apply ih
        · simp [List.length_drop] at h1 ⊢
          omega
        · simp [List.length_drop] at h2 ⊢
          omega

theorem chunks16_nil : chunks16 [] = [] := rfl

theorem chunks16_ne_nil (l : Bytes) (h : l ≠ []) :
    chunks16 l = l.take 16 :: chunks16 (l.drop 16) := by
  obtain ⟨x, xs, rfl⟩ : ∃ x xs, l = x :: xs := by
    cases l with
    | nil => exact absurd rfl h
    | cons x xs => exact ⟨x, xs, rfl⟩
  show chunks16Aux (xs.length + 1) (x :: xs) = _
  simp only [chunks16Aux]
  congr 1
  apply chunks16Aux_congr
  · simp [List.length_drop]
  · exact le_refl _

theorem chunks16_cons (a rest : Bytes) (ha : a.length = 16) :
    chunks16 (a ++ rest) = a :: chunks16 rest := by
  have hne : a ++ rest ≠ [] := by
    intro hcontra
    have hc := congrArg List.length hcontra
    simp [ha] at hc
  rw [chunks16_ne_nil _ hne]
  congr 1
  · exact List.take_left' ha
  · rw [List.drop_left' ha]

theorem chunks16_flatten_aux : ∀ (n : Nat) (l : Bytes), l.length ≤ n →
    (chunks16 l).flatten = l := by
  intro n
  induction n with
  | zero =>
    intro l h
    have hl : l = [] := List.eq_nil_of_length_eq_zero (by omega)
    subst hl
    rfl
  | succ n ih =>
    intro l h
    by_cases hl : l = []
    · subst hl
      rfl
    · rw [chunks16_ne_nil l hl]
      simp only [List.flatten_cons]
      rw [ih (l.drop 16) (by simp [List.length_drop]; omega)]
      exact List.take_append_drop 16 l

theorem chunks16_flatten (l : Bytes) : (chunks16 l).flatten = l :=
  chunks16_flatten_aux l.length l (le_refl _)

theorem chunks16_blocks_length_aux : ∀ (n : Nat) (l : Bytes), l.length ≤ n →
    l.length % 16 = 0 → ∀ b ∈ chunks16 l, b.length = 16 := by
  intro n
  induction n with
  | zero =>
    intro l h _ b hb
    have hl : l = [] := List.eq_nil_of_length_eq_zero (by omega)
    subst hl
    simp [chunks16_nil] at hb
  | succ n ih =>
    intro l h hmod b hb
    by_cases hl : l = []
    · subst hl
      simp [chunks16_nil] at hb
    · rw [chunks16_ne_nil l hl] at hb
      have hlp : 0 < l.length := List.length_pos.mpr hl
      have h16 : 16 ≤ l.length := by omega
      rcases List.mem_cons.mp hb with rfl | hb2
      · simp [List.length_take]
        omega
      · exact ih (l.drop 16) (by simp [List.length_drop]; omega)
          (by simp [List.length_drop]; omega) b hb2

theorem chunks16_blocks_length (l : Bytes) :
    l.length % 16 = 0 → ∀ b ∈ chunks16 l, b.length = 16 :=
  chunks16_blocks_length_aux l.length l (le_refl _)

theorem chunks16_blocks_isBytes_aux : ∀ (n : Nat) (l : Bytes), l.length ≤ n →
    IsBytes l → ∀ b ∈ chunks16 l, IsBytes b := by
  intro n
  induction n with
  | zero =>
    intro l h _ b hb
    have hl : l = [] := List.eq_nil_of_length_eq_zero (by omega)
    subst hl
    simp [chunks16_nil] at hb
  | succ n ih =>
    intro l h hB b hb
    by_cases hl : l = []
    · subst hl
      simp [chunks16_nil] at hb
    · rw [chunks16_ne_nil l hl] at hb
      rcases List.mem_cons.mp hb with rfl | hb2
      · exact fun x hx => hB x (List.mem_of_mem_take hx)
      · exact ih (l.drop 16) (by simp [List.length_drop]; omega)
          (fun x hx => hB x (List.mem_of_mem_drop hx)) b hb2

theorem chunks16_blocks_isBytes (l : Bytes) :
    IsBytes l → ∀ b ∈ chunks16 l, IsBytes b :=
  chunks16_blocks_isBytes_aux l.length l (le_refl _)

/-! ## CBC lemmas -/

theorem cbcEncryptBlocks_length {C : CryptoPrimitives} {pub priv : Bytes}
    (G : GoodCrypto C pub priv) (key : Bytes) (blocks : List Bytes) :
    ∀ prev : Bytes, prev.length = 16 → (∀ b ∈ blocks, b.length = 16) →
    (cbcEncryptBlocks C key prev blocks).length = 16 * blocks.length := by
  induction blocks with
  | nil =>
    intro prev _ _
    simp [cbcEncryptBlocks]
  | cons b bs ih =>
    intro prev hprev hb
    have hb16 : b.length = 16 := hb b (by simp)
    have hx : (xorBytes prev b).length = 16 := by rw [xorBytes_length, hprev, hb16]; rfl
    have hc : (C.encBlock key (xorBytes prev b)).length = 16 := G.encBlock_length _ _ hx
    simp only [cbcEncryptBlocks, List.length_append, List.length_cons, hc,
      ih _ hc (fun x hx2 => hb x (by simp [hx2]))]
    ring

theorem cbcDecryptBlocks_length {C : CryptoPrimitives} {pub priv : Bytes}
    (G : GoodCrypto C pub priv) (key : Bytes) (blocks : List Bytes) :
    ∀ prev : Bytes, prev.length = 16 → (∀ b ∈ blocks, b.length = 16) →
    (cbcDecryptBlocks C key prev blocks).length = 16 * blocks.length := by
  induction blocks with
  | nil =>
    intro prev _ _
    simp [cbcDecryptBlocks]
  | cons b bs ih =>
    intro prev hprev hb
    have hb16 : b.length = 16 := hb b (by simp)
    have hd : (C.decBlock key b).length = 16 := G.decBlock_length _ _ hb16
    have hx : (xorBytes (C.decBlock key b) prev).length = 16 := by
      rw [xorBytes_length, hd, hprev]; rfl
    simp only [cbcDecryptBlocks, List.length_append, List.length_cons, hx,
      ih _ hb16 (fun x hx2 => hb x (by simp [hx2]))]
    ring

theorem cbcEncryptBlocks_isBytes {C : CryptoPrimitives} {pub priv : Bytes}
    (G : GoodCrypto C pub priv) (key : Bytes) (blocks : List Bytes) :
    ∀ prev : Bytes, IsBytes prev → (∀ b ∈ blocks, IsBytes b) →
    IsBytes (cbcEncryptBlocks C key prev blocks) := by
  induction blocks with
  | nil =>
    intro prev _ _
    simp [cbcEncryptBlocks, IsBytes]
  | cons b bs ih =>
    intro prev hprev hb
    simp only [cbcEncryptBlocks]
    apply isBytes_append
    · exact G.encBlock_bytes _ _ (xorBytes_isBytes _ _ hprev (hb b (by simp)))
    · exact ih _ (G.encBlock_bytes _ _ (xorBytes_isBytes _ _ hprev (hb b (by simp))))
        (fun x hx => hb x (by simp [hx]))

theorem cbcDecryptBlocks_cbcEncryptBlocks {C : CryptoPrimitives} {pub priv : Bytes}
    (G : GoodCrypto C pub priv) (key : Bytes) (blocks : List Bytes) :
    ∀ prev : Bytes, prev.length = 16 → (∀ b ∈ blocks, b.length = 16) →
    cbcDecryptBlocks C key prev (chunks16 (cbcEncryptBlocks C key prev blocks)) =
      blocks.flatten := by
  induction blocks with
  | nil =>
    intro prev _ _
    simp [cbcEncryptBlocks, chunks16_nil, cbcDecryptBlocks]
  | cons b bs ih =>
    intro prev hprev hb
    have hb16 : b.length = 16 := hb b (by simp)
    have hx : (xorBytes prev b).length = 16 := by rw [xorBytes_length, hprev, hb16]; rfl
    have hc : (C.encBlock key (xorBytes prev b)).length = 16 := G.encBlock_length _ _ hx
    simp only [cbcEncryptBlocks]
    rw [chunks16_cons _ _ hc]
    simp only [cbcDecryptBlocks]
    rw [G.decBlock_encBlock _ _ hx, xorBytes_cancel1 prev b (by rw [hprev, hb16]),
      ih _ hc (fun x hx2 => hb x (by simp [hx2]))]
    rfl

theorem cbcEncryptBlocks_cbcDecryptBlocks {C : CryptoPrimitives} {pub priv : Bytes}
    (G : GoodCrypto C pub priv) (key : Bytes) (blocks : List Bytes) :
    ∀ prev : Bytes, prev.length = 16 → (∀ b ∈ blocks, b.length = 16) →
    cbcEncryptBlocks C key prev (chunks16 (cbcDecryptBlocks C key prev blocks)) =
      blocks.flatten := by
  induction blocks with
  | nil =>
    intro prev _ _
    simp [cbcDecryptBlocks, chunks16_nil, cbcEncryptBlocks]
  | cons b bs ih =>
    intro prev hprev hb
    have hb16 : b.length = 16 := hb b (by simp)
    have hd : (C.decBlock key b).length = 16 := G.decBlock_length _ _ hb16
    have hx : (xorBytes (C.decBlock key b) prev).length = 16 := by
      rw [xorBytes_length, hd, hprev]; rfl
    simp only [cbcDecryptBlocks]
    rw [chunks16_cons _ _ hx]
    simp only [cbcEncryptBlocks]
    rw [xorBytes_cancel2 prev (C.decBlock key b) (by rw [hprev, hd]),
      G.encBlock_decBlock _ _ hb16,
      ih _ hb16 (fun x hx2 => hb x (by simp [hx2]))]
    rfl

theorem chunks16_count (l : Bytes) (hmod : l.length % 16 = 0) :
    16 * (chunks16 l).length = l.length := by
  have hflat := congrArg List.length (chunks16_flatten l)
  rw [List.length_flatten] at hflat
  have hrep : (chunks16 l).map List.length = List.replicate (chunks16 l).length 16 := by
    apply List.eq_replicate_iff.mpr
    refine ⟨by simp, ?_⟩
    intro x hx
    rcases List.mem_map.mp hx with ⟨b, hb, rfl⟩
    exact chunks16_blocks_length l hmod b hb
  rw [hrep, List.sum_replicate, smul_eq_mul] at hflat
  omega

theorem cbcEncrypt_length {C : CryptoPrimitives} {pub priv : Bytes}
    (G : GoodCrypto C pub priv) (key iv data ct : Bytes)
    (h : cbcEncrypt C key iv data = some ct) :
    ct.length = data.length + (16 - data.length % 16) := by
  unfold cbcEncrypt at h
  by_cases hc : key.length = 16 ∧ iv.length = 16
  · rw [if_pos hc] at h
    have hct := (Option.some.inj h).symm
    rw [hct, cbcEncryptBlocks_length G key _ _ hc.2
      (chunks16_blocks_length _ (pkcs7pad_length_mod data)),
      chunks16_count _ (pkcs7pad_length_mod data), pkcs7pad_length]
  · rw [if_neg hc] at h
    simp at h

theorem cbcEncrypt_isBytes {C : CryptoPrimitives} {pub priv : Bytes}
    (G : GoodCrypto C pub priv) (key iv data ct : Bytes)
    (hiv : IsBytes iv) (hdata : IsBytes data)
    (h : cbcEncrypt C key iv data = some ct) : IsBytes ct := by
  unfold cbcEncrypt at h
  by_cases hc : key.length = 16 ∧ iv.length = 16
  · rw [if_pos hc] at h
    rw [← Option.some.inj h]
    exact cbcEncryptBlocks_isBytes G key _ _ hiv
      (chunks16_blocks_isBytes _ (pkcs7pad_isBytes hdata))
  · rw [if_neg hc] at h
    simp at h

theorem cbcDecrypt_cbcEncrypt {C : CryptoPrimitives} {pub priv : Bytes}
    (G : GoodCrypto C pub priv) (key iv data ct : Bytes)
    (h : cbcEncrypt C key iv data = some ct) :
    cbcDecrypt C key iv ct = some data := by
  unfold cbcEncrypt at h
  by_cases hc : key.length = 16 ∧ iv.length = 16
  · rw [if_pos hc] at h
    have hct := (Option.some.inj h).symm
    have hblocks := chunks16_blocks_length _ (pkcs7pad_length_mod data)
    have hctlen : ct.length % 16 = 0 := by
      rw [hct, cbcEncryptBlocks_length G key _ _ hc.2 hblocks]
      omega
    unfold cbcDecrypt
    rw [if_pos ⟨hc.1, hc.2, hctlen⟩, hct,
      cbcDecryptBlocks_cbcEncryptBlocks G key _ _ hc.2 hblocks, chunks16_flatten,
      pkcs7unpad_pkcs7pad]
  · rw [if_neg hc] at h
    simp at h

theorem cbcEncrypt_of_cbcDecrypt {C : CryptoPrimitives} {pub priv : Bytes}
    (G : GoodCrypto C pub priv) (key iv ct p : Bytes)
    (h : cbcDecrypt C key iv ct = some p) :
    cbcEncrypt C key iv p = some ct := by
  unfold cbcDecrypt at h
  by_cases hc : key.length = 16 ∧ iv.length = 16 ∧ ct.length % 16 = 0
  · rw [if_pos hc] at h
    obtain ⟨hk, hiv, hmod⟩ := hc
    have hblocks := chunks16_blocks_length ct hmod
    have hdlen : (cbcDecryptBlocks C key iv (chunks16 ct)).length % 16 = 0 := by
      rw [cbcDecryptBlocks_length G key _ _ hiv hblocks]
      omega
    have hpad := pkcs7unpad_eq_pad _ p hdlen h
    unfold cbcEncrypt
    rw [if_pos ⟨hk, hiv⟩, ← hpad,
      cbcEncryptBlocks_cbcDecryptBlocks G key _ _ hiv hblocks, chunks16_flatten]
  · rw [if_neg hc] at h
    simp at h

/-! ## Payload build and parse lemmas -/

/-- The 23-byte long-token plaintext layout. -/
def longPlain (st tt pid al tid exp : Nat) : Bytes :=
  [st, tt] ++ u32le pid ++ [al] ++ u64le tid ++ u64le exp

/-- The 14-byte short-token plaintext layout. -/
def shortPlain (st tt pid exp : Nat) : Bytes :=
  [st, tt] ++ u32le pid ++ u64le exp

theorem shortDataBuffer_eq (st tt pid exp : Nat) (h1 : st < 256) (h2 : tt < 256)
    (h3 : pid < 4294967296) (h4 : exp < 18446744073709551616) :
    shortDataBuffer st tt pid exp = .ok (shortPlain st tt pid exp) := by
  simp [shortDataBuffer, shortPlain, writeUInt8, writeUInt32LE, writeBigUInt64LE, writeBytes,
    u32le, u64le, h1, h2, h3, h4, List.replicate, Except.bind, Bind.bind]

theorem longDataBuffer_eq (st tt pid al tid exp : Nat) (h1 : st < 256) (h2 : tt < 256)
    (h3 : pid < 4294967296) (h4 : al < 256) (h5 : tid < 18446744073709551616)
    (h6 : exp < 18446744073709551616) :
    longDataBuffer st tt pid al tid exp = .ok (longPlain st tt pid al tid exp) := by
  simp [longDataBuffer, longPlain, writeUInt8, writeUInt32LE, writeBigUInt64LE, writeBytes,
    u32le, u64le, h1, h2, h3, h4, h5, h6, List.replicate, Except.bind, Bind.bind]

theorem shortPlain_length (st tt pid exp : Nat) : (shortPlain st tt pid exp).length = 14 := by
  simp [shortPlain, u32le, u64le]

theorem longPlain_length (st tt pid al tid exp : Nat) :
    (longPlain st tt pid al tid exp).length = 23 := by
  simp [longPlain, u32le, u64le]

theorem shortPlain_isBytes (st tt pid exp : Nat) (h1 : st < 256) (h2 : tt < 256) :
    IsBytes (shortPlain st tt pid exp) := by
  intro x hx
  simp [shortPlain, u32le, u64le] at hx
  rcases hx with h | h | h | h | h | h | h | h | h | h | h | h | h | h <;> omega

theorem longPlain_isBytes (st tt pid al tid exp : Nat) (h1 : st < 256) (h2 : tt < 256)
    (h4 : al < 256) : IsBytes (longPlain st tt pid al tid exp) := by
  intro x hx
  simp [longPlain, u32le, u64le] at hx
  rcases hx with h | h | h | h | h | h | h | h | h | h | h | h | h | h | h | h | h | h | h | h | h | h | h <;> omega

theorem unpackToken_short (st tt pid exp : Nat) (h1 : st < 256) (h2 : tt < 256)
    (h3 : pid < 4294967296) (h4 : exp < 18446744073709551616) :
    unpackToken (shortPlain st tt pid exp) = .ok ⟨st, tt, pid, none, none, exp⟩ := by
  simp only [unpackToken, shortPlain, u32le, u64le, readUInt8, readUInt32LE, readBigUInt64LE]
  norm_num [List.getD]
  omega

theorem unpackToken_long (st tt pid al tid exp : Nat) (h1 : st < 256) (h2 : tt < 256)
    (h3 : pid < 4294967296) (h4 : al < 256) (h5 : tid < 18446744073709551616)
    (h6 : exp < 18446744073709551616) :
    unpackToken (longPlain st tt pid al tid exp) = .ok ⟨st, tt, pid, some al, some tid, exp⟩ := by
  simp only [unpackToken, longPlain, u32le, u64le, readUInt8, readUInt32LE, readBigUInt64LE]
  norm_num [List.getD]
  omega

/-! ## Slicing lemmas -/

theorem subarray_isBytes (l : Bytes) (a b : Int) (h : IsBytes l) : IsBytes (subarray l a b) :=
  fun x hx => h x (List.mem_of_mem_take (List.mem_of_mem_drop hx))

theorem subarray_nonneg (l : Bytes) (a b : Nat) (hb : b ≤ l.length) :
    subarray l (a : Int) (b : Int) = (l.take b).drop a := by
  unfold subarray clampIndex
  rw [if_neg (by omega), if_neg (by omega)]
  have h1 : ((b : Nat) : Int).toNat = b := by omega
  have h2 : ((a : Nat) : Int).toNat = a := by omega
  rw [h1, h2, Nat.min_eq_left hb]
  rcases Nat.le_total a l.length with h | h
  · rw [Nat.min_eq_left h]
  · rw [Nat.min_eq_right h, List.drop_eq_nil_of_le (by simp [List.length_take] <;> omega),
      List.drop_eq_nil_of_le (by simp [List.length_take] <;> omega)]

theorem subarrayEnd_nonneg (l : Bytes) (a : Nat) :
    subarrayEnd l (a : Int) = l.drop a := by
  unfold subarrayEnd clampIndex
  rw [if_neg (by omega)]
  rcases Nat.le_total a l.length with h | h
  · congr 1
    simp
    omega
  · rw [List.drop_eq_nil_of_le (by simp; omega), List.drop_eq_nil_of_le (by omega)]

theorem subarray_window_length (ek : Bytes) (p : Int) (hek : ek.length = 128)
    (h0 : 0 ≤ p) (h1 : p < 120) : (subarray ek p (p + 8)).length = 8 := by
  unfold subarray clampIndex
  rw [if_neg (by omega), if_neg (by omega)]
  simp [List.length_drop, List.length_take, hek]
  omega

theorem longToken_slices (ek pts sig ct : Bytes)
    (hek : ek.length = 128) (hpts : pts.length = 2) (hsig : sig.length = 20) :
    subarray (ek ++ pts ++ sig ++ ct) 0 130 = ek ++ pts ∧
      subarray (ek ++ pts ++ sig ++ ct) 130 150 = sig ∧
      subarrayEnd (ek ++ pts ++ sig ++ ct) 150 = ct ∧
      subarray (ek ++ pts) 0 128 = ek := by
  have hassoc1 : ek ++ pts ++ sig ++ ct = (ek ++ pts) ++ (sig ++ ct) := by
    simp [List.append_assoc]
  have hassoc2 : ek ++ pts ++ sig ++ ct = ((ek ++ pts) ++ sig) ++ ct := by
    simp [List.append_assoc]
  have hlen12 : (ek ++ pts).length = 130 := by simp [hek, hpts]
  have hlen123 : ((ek ++ pts) ++ sig).length = 150 := by simp [hek, hpts, hsig]
  have hlen : (ek ++ pts ++ sig ++ ct).length = 150 + ct.length := by
    simp [hek, hpts, hsig]
    omega
  refine ⟨?_, ?_, ?_, ?_⟩
  · have h0 : ((0 : Nat) : Int) = (0 : Int) := rfl
    have h130 : ((130 : Nat) : Int) = (130 : Int) := rfl
    rw [← h0, ← h130, subarray_nonneg _ _ _ (by omega), List.drop_zero, hassoc1, ← hlen12,
      List.take_left]
  · have h130 : ((130 : Nat) : Int) = (130 : Int) := rfl
    have h150 : ((150 : Nat) : Int) = (150 : Int) := rfl
    rw [← h130, ← h150, subarray_nonneg _ _ _ (by omega), hassoc2, ← hlen123, List.take_left,
      ← hlen12, List.drop_left]
  · have h150 : ((150 : Nat) : Int) = (150 : Int) := rfl
    rw [← h150, subarrayEnd_nonneg, hassoc2, ← hlen123, List.drop_left]
  · have h0 : ((0 : Nat) : Int) = (0 : Int) := rfl
    have h128 : ((128 : Nat) : Int) = (128 : Int) := rfl
    rw [← h0, ← h128, subarray_nonneg _ _ _ (by omega), List.drop_zero, ← hek, List.take_left]

theorem intToByte_lt (p : Int) : intToByte p < 256 := by
  unfold intToByte
  omega

theorem intToByte_of_range (p : Int) (h0 : 0 ≤ p) (h1 : p < 256) : (intToByte p : Int) = p := by
  unfold intToByte
  omega

theorem readInt8_append2 (ek : Bytes) (b1 b2 : Nat) (hek : ek.length = 128) :
    readInt8 (ek ++ [b1, b2]) 128 =
      some (if b1 < 128 then (b1 : Int) else (b1 : Int) - 256) ∧
    readInt8 (ek ++ [b1, b2]) 129 =
      some (if b2 < 128 then (b2 : Int) else (b2 : Int) - 256) := by
  have hg1 : (ek ++ [b1, b2]).getD 128 0 = b1 := by
    rw [List.getD_append_right _ _ _ _ (by omega), hek]
    norm_num [List.getD]
  have hg2 : (ek ++ [b1, b2]).getD 129 0 = b2 := by
    rw [List.getD_append_right _ _ _ _ (by omega), hek]
    norm_num [List.getD]
  constructor
  · unfold readInt8
    rw [if_pos (by simp [hek]), hg1]
  · unfold readInt8
    rw [if_pos (by simp [hek]), hg2]

theorem randomPoint_bounds (r : ℚ) (h0 : 0 ≤ r) (h1 : r < 1) :
    0 ≤ randomPoint 128 r ∧ randomPoint 128 r < 120 := by
  unfold randomPoint
  have h120 : ((128 : Nat) : ℚ) - 8 = 120 := by norm_num
  rw [h120]
  constructor
  · exact Int.floor_nonneg.mpr (by positivity)
  · apply Int.floor_lt.mpr
    push_cast
    nlinarith

/-! ## Long-token production and decoding -/

/-- The raw bytes of a generated long wire token: RSA-encrypted AES key,
the two IV-derivation points, the HMAC-SHA1 signature, and the AES-CBC
ciphertext (derived description, established by `generateToken_long_eq`). -/
def longTokenBytes (C : CryptoPrimitives) (pub secret rkey : Bytes) (r1 r2 : ℚ)
    (plain ct : Bytes) : Bytes :=
  C.rsaEncrypt pub rkey ++ [intToByte (randomPoint 128 r1), intToByte (randomPoint 128 r2)] ++
    C.hmacSha1 secret plain ++ ct

/-- The IV derived from the two pseudo-random windows into the RSA ciphertext. -/
def longIV (C : CryptoPrimitives) (pub rkey : Bytes) (r1 r2 : ℚ) : Bytes :=
  subarray (C.rsaEncrypt pub rkey) (randomPoint 128 r1) (randomPoint 128 r1 + 8) ++
    subarray (C.rsaEncrypt pub rkey) (randomPoint 128 r2) (randomPoint 128 r2 + 8)

theorem longIV_length (C : CryptoPrimitives) {pub priv : Bytes} (G : GoodCrypto C pub priv)
    (rkey : Bytes) (r1 r2 : ℚ) (hrk : rkey.length = 16)
    (hr1a : 0 ≤ r1) (hr1b : r1 < 1) (hr2a : 0 ≤ r2) (hr2b : r2 < 1) :
    (longIV C pub rkey r1 r2).length = 16 := by
  have hek : (C.rsaEncrypt pub rkey).length = 128 := G.rsa_length rkey hrk
  obtain ⟨hp1a, hp1b⟩ := randomPoint_bounds r1 hr1a hr1b
  obtain ⟨hp2a, hp2b⟩ := randomPoint_bounds r2 hr2a hr2b
  rw [longIV, List.length_append, subarray_window_length _ _ hek hp1a hp1b,
    subarray_window_length _ _ hek hp2a hp2b]

theorem generateToken_long_eq (C : CryptoPrimitives) {pub priv : Bytes}
    (G : GoodCrypto C pub priv) (secret aesKey rkey : Bytes) (r1 r2 : ℚ)
    (opts : TokenOptions) (al tid : Nat)
    (hal : opts.access_level = some al) (htid : opts.title_id = some tid)
    (hal0 : al ≠ 0) (htid0 : tid ≠ 0)
    (hst : opts.system_type < 256) (htt : opts.token_type < 256)
    (hpid : opts.pid < 4294967296) (halR : al < 256)
    (htidR : tid < 18446744073709551616) (hexp : opts.expire_time < 18446744073709551616)
    (hrk : rkey.length = 16)
    (hr1a : 0 ≤ r1) (hr1b : r1 < 1) (hr2a : 0 ≤ r2) (hr2b : r2 < 1) :
    ∃ ct : Bytes,
      cbcEncrypt C rkey (longIV C pub rkey r1 r2)
        (longPlain opts.system_type opts.token_type opts.pid al tid opts.expire_time) =
        some ct ∧
      generateToken C aesKey rkey r1 r2 (some ⟨pub, secret⟩) opts =
        .ok (some (b64encode (longTokenBytes C pub secret rkey r1 r2
          (longPlain opts.system_type opts.token_type opts.pid al tid opts.expire_time) ct))) := by
  have hek : (C.rsaEncrypt pub rkey).length = 128 := G.rsa_length rkey hrk
  have hiv : (longIV C pub rkey r1 r2).length = 16 :=
    longIV_length C G rkey r1 r2 hrk hr1a hr1b hr2a hr2b
  have henc : cbcEncrypt C rkey (longIV C pub rkey r1 r2)
      (longPlain opts.system_type opts.token_type opts.pid al tid opts.expire_time) =
      some (cbcEncryptBlocks C rkey (longIV C pub rkey r1 r2)
        (chunks16 (pkcs7pad
          (longPlain opts.system_type opts.token_type opts.pid al tid opts.expire_time)))) := by
    unfold cbcEncrypt
    rw [if_pos ⟨hrk, hiv⟩]
  refine ⟨_, henc, ?_⟩
  unfold generateToken
  dsimp only
  rw [if_neg (by simp [jsFalsy, hal, htid, hal0, htid0])]
  rw [hal, htid]
  simp only [Option.getD_some]
  rw [longDataBuffer_eq _ _ _ _ _ _ hst htt hpid halR htidR hexp]
  simp only [Except.bind, Bind.bind]
  rw [hek]
  have hivEq : subarray (C.rsaEncrypt pub rkey) (randomPoint 128 r1) (randomPoint 128 r1 + 8) ++
      subarray (C.rsaEncrypt pub rkey) (randomPoint 128 r2) (randomPoint 128 r2 + 8) =
      longIV C pub rkey r1 r2 := rfl
  rw [hivEq, henc]
  rfl

theorem decryptToken_long_roundtrip (C : CryptoPrimitives) {pub priv : Bytes}
    (G : GoodCrypto C pub priv) (aesKey secret rkey plain ct : Bytes) (r1 r2 : ℚ)
    (hrk : rkey.length = 16) (hrkB : IsBytes rkey)
    (hr1a : 0 ≤ r1) (hr1b : r1 < 1) (hr2a : 0 ≤ r2) (hr2b : r2 < 1)
    (hct : cbcEncrypt C rkey (longIV C pub rkey r1 r2) plain = some ct) :
    decryptToken C aesKey priv secret
      (longTokenBytes C pub secret rkey r1 r2 plain ct) = .ok plain := by
  have hek : (C.rsaEncrypt pub rkey).length = 128 := G.rsa_length rkey hrk
  obtain ⟨hp1a, hp1b⟩ := randomPoint_bounds r1 hr1a hr1b
  obtain ⟨hp2a, hp2b⟩ := randomPoint_bounds r2 hr2a hr2b
  have hsig : (C.hmacSha1 secret plain).length = 20 := G.hmac_length secret plain
  obtain ⟨hs1, hs2, hs3, hs4⟩ := longToken_slices (C.rsaEncrypt pub rkey)
    [intToByte (randomPoint 128 r1), intToByte (randomPoint 128 r2)]
    (C.hmacSha1 secret plain) ct hek rfl hsig
  have hb1 : intToByte (randomPoint 128 r1) < 128 := by
    unfold intToByte
    omega
  have hb2 : intToByte (randomPoint 128 r2) < 128 := by
    unfold intToByte
    omega
  obtain ⟨hr1, hr2e⟩ := readInt8_append2 (C.rsaEncrypt pub rkey)
    (intToByte (randomPoint 128 r1)) (intToByte (randomPoint 128 r2)) hek
  rw [if_pos hb1, intToByte_of_range _ hp1a (by omega)] at hr1
  rw [if_pos hb2, intToByte_of_range _ hp2a (by omega)] at hr2e
  have hlen : (longTokenBytes C pub secret rkey r1 r2 plain ct).length = 150 + ct.length := by
    unfold longTokenBytes
    simp [hek, hsig]
    omega
  unfold decryptToken
  rw [if_neg (by omega)]
  unfold longTokenBytes
  dsimp only
  rw [hs1, hs4, hr1, hr2e, G.rsa_roundtrip rkey hrk hrkB, hs3]
  dsimp only
  have hfold : subarray (C.rsaEncrypt pub rkey) (randomPoint 128 r1) (randomPoint 128 r1 + 8) ++
      subarray (C.rsaEncrypt pub rkey) (randomPoint 128 r2) (randomPoint 128 r2 + 8) =
      longIV C pub rkey r1 r2 := rfl
  rw [hfold, cbcDecrypt_cbcEncrypt G _ _ _ _ hct]
  dsimp only
  rw [hs2]
  simp

theorem longTokenBytes_length (C : CryptoPrimitives) {pub priv : Bytes}
    (G : GoodCrypto C pub priv) (secret rkey plain ct : Bytes) (r1 r2 : ℚ)
    (hrk : rkey.length = 16) :
    (longTokenBytes C pub secret rkey r1 r2 plain ct).length = 150 + ct.length := by
  unfold longTokenBytes
  simp [G.rsa_length rkey hrk, G.hmac_length]
  omega

theorem longTokenBytes_isBytes (C : CryptoPrimitives) {pub priv : Bytes}
    (G : GoodCrypto C pub priv) (secret rkey plain ct : Bytes) (r1 r2 : ℚ)
    (hct : IsBytes ct) : IsBytes (longTokenBytes C pub secret rkey r1 r2 plain ct) := by
  unfold longTokenBytes
  refine isBytes_append (isBytes_append (isBytes_append (G.rsa_bytes rkey) ?_)
    (G.hmac_bytes _ _)) hct
  intro x hx
  simp at hx
  rcases hx with rfl | rfl <;> exact intToByte_lt _

theorem longIV_isBytes (C : CryptoPrimitives) {pub priv : Bytes}
    (G : GoodCrypto C pub priv) (rkey : Bytes) (r1 r2 : ℚ) :
    IsBytes (longIV C pub rkey r1 r2) :=
  isBytes_append (subarray_isBytes _ _ _ (G.rsa_bytes rkey))
    (subarray_isBytes _ _ _ (G.rsa_bytes rkey))

/-! ## Short-token production and decoding -/

theorem generateToken_short_eq (C : CryptoPrimitives) (aesKey rkey : Bytes) (r1 r2 : ℚ)
    (opts : TokenOptions)
    (hst : opts.system_type < 256) (htt : opts.token_type < 256)
    (hpid : opts.pid < 4294967296) (hexp : opts.expire_time < 18446744073709551616)
    (hkey : aesKey.length = 16) :
    ∃ ct : Bytes,
      cbcEncrypt C aesKey (List.replicate 16 0)
        (shortPlain opts.system_type opts.token_type opts.pid opts.expire_time) = some ct ∧
      generateToken C aesKey rkey r1 r2 none opts = .ok (some (b64encode ct)) := by
  have henc : cbcEncrypt C aesKey (List.replicate 16 0)
      (shortPlain opts.system_type opts.token_type opts.pid opts.expire_time) =
      some (cbcEncryptBlocks C aesKey (List.replicate 16 0)
        (chunks16 (pkcs7pad
          (shortPlain opts.system_type opts.token_type opts.pid opts.expire_time)))) := by
    unfold cbcEncrypt
    rw [if_pos ⟨hkey, by simp⟩]
  refine ⟨_, henc, ?_⟩
  unfold generateToken
  dsimp only
  rw [shortDataBuffer_eq _ _ _ _ hst htt hpid hexp]
  simp only [Except.bind, Bind.bind]
  rw [henc]

theorem decryptToken_short_roundtrip (C : CryptoPrimitives) {pub priv : Bytes}
    (G : GoodCrypto C pub priv) (aesKey privKey secretKey plain ct : Bytes)
    (hplain : plain.length = 14)
    (hct : cbcEncrypt C aesKey (List.replicate 16 0) plain = some ct) :
    decryptToken C aesKey privKey secretKey ct = .ok plain := by
  have hctlen : ct.length = 16 := by
    rw [cbcEncrypt_length G _ _ _ _ hct, hplain]
  unfold decryptToken
  rw [if_pos (by omega), cbcDecrypt_cbcEncrypt G _ _ _ _ hct]

/-! ## A concrete lawful instance of the primitives -/

theorem modelCrypto_good (pub priv : Bytes) : GoodCrypto modelCrypto pub priv := by
  refine ⟨?_, ?_, ?_, ?_, ?_, ?_, ?_, ?_, ?_, ?_⟩
  · intro k b _
    rfl
  · intro k b _
    rfl
  · intro k b h
    exact h
  · intro k b h
    exact h
  · intro k b h
    exact h
  · intro d hlen hB
    dsimp only [modelCrypto]
    have htake : d.take 16 = d := List.take_of_length_le (by omega)
    rw [htake]
    have hmap : d.map (· % 256) = d := by
      have h2 : d.map (· % 256) = d.map id :=
        List.map_congr_left (fun x hx => Nat.mod_eq_of_lt (hB x hx))
      rw [h2, List.map_id]
    rw [hmap, List.take_left' hlen]
  · intro d hlen
    dsimp only [modelCrypto]
    simp [List.length_take, hlen]
  · intro d
    dsimp only [modelCrypto]
    apply isBytes_append
    · intro x hx
      rcases List.mem_map.mp hx with ⟨y, _, rfl⟩
      exact Nat.mod_lt _ (by omega)
    · exact isBytes_replicate _ _ (by omega)
  · intro s m
    rfl
  · intro s m
    exact isBytes_replicate _ _ (Nat.mod_lt _ (by omega))

/-- `modelCrypto` with an HMAC that takes a designated value exactly on one
message: a lawful instance whose HMAC is collision-free at that message, for
exercising integrity hypotheses on concrete inputs. -/
def pointCrypto (d0 : Bytes) : CryptoPrimitives :=
  { modelCrypto with
    hmacSha1 := fun _ m => if m = d0 then List.replicate 20 1 else List.replicate 20 0 }

theorem pointCrypto_good (d0 pub priv : Bytes) : GoodCrypto (pointCrypto d0) pub priv := by
  have hm := modelCrypto_good pub priv
  refine ⟨hm.decBlock_encBlock, hm.encBlock_decBlock, hm.encBlock_length, hm.decBlock_length,
    hm.encBlock_bytes, hm.rsa_roundtrip, hm.rsa_length, hm.rsa_bytes, ?_, ?_⟩
  · intro s m
    show (if m = d0 then List.replicate 20 1 else List.replicate 20 0).length = 20
    split_ifs <;> simp
  · intro s m
    show IsBytes (if m = d0 then List.replicate 20 1 else List.replicate 20 0)
    split_ifs <;> exact isBytes_replicate _ _ (by omega)

theorem pointCrypto_hmac_inj (d0 s m : Bytes)
    (h : (pointCrypto d0).hmacSha1 s m = (pointCrypto d0).hmacSha1 s d0) : m = d0 := by
  by_cases hm : m = d0
  · exact hm
  · exfalso
    have h2 : (List.replicate 20 0 : Bytes) = List.replicate 20 1 := by
      simpa [pointCrypto, hm] using h
    have h3 := congrArg (fun l => l.getD 0 99) h2
    simp [List.getD] at h3

/-! ## Bit flipping (for tamper-sensitivity statements) -/

/-- Flip bit `k` of the byte at index `i`. -/
def flipBit (l : Bytes) (i k : Nat) : Bytes := l.set i (l.getD i 0 ^^^ 2 ^ k)

theorem flipBit_length (l : Bytes) (i k : Nat) : (flipBit l i k).length = l.length := by
  simp [flipBit]

theorem flipBit_append_right (l1 l2 : Bytes) (i k : Nat) (h : l1.length ≤ i) :
    flipBit (l1 ++ l2) i k = l1 ++ flipBit l2 (i - l1.length) k := by
  unfold flipBit
  rw [List.set_append_right _ _ h, List.getD_append_right _ _ _ _ h]

theorem flipBit_append_left (l1 l2 : Bytes) (i k : Nat) (h : i < l1.length) :
    flipBit (l1 ++ l2) i k = flipBit l1 i k ++ l2 := by
  unfold flipBit
  rw [List.set_append_left _ _ h, List.getD_append _ _ _ _ h]

theorem flipBit_ne (l : Bytes) (i k : Nat) (h : i < l.length) : flipBit l i k ≠ l := by
  intro hc
  have hg := congrArg (fun x => x[i]?) hc
  simp only [flipBit] at hg
  rw [List.getElem?_set_self (by simpa using h), List.getElem?_eq_getElem h] at hg
  have hv := Option.some.inj hg
  have hgd : l.getD i 0 = l[i] := by
    rw [List.getD_eq_getElem?_getD, List.getElem?_eq_getElem h]
    rfl
  rw [hgd] at hv
  have h2 : (2 : Nat) ^ k = 0 := by
    have h3 : l[i] ^^^ 2 ^ k = l[i] ^^^ 0 := by
      rw [Nat.xor_zero]
      exact hv
    exact Nat.xor_right_inj.mp h3
  have h4 : 0 < (2 : Nat) ^ k := Nat.pos_pow_of_pos k (by omega)
  omega

/-- The long-token branch of `decryptToken`, characterized on any input of
the produced shape (RSA block, two in-range point bytes, a 20-byte
signature field, an arbitrary body): it AES-decrypts the body under the
derived IV, throws on a padding error, returns the body on a signature
match and the empty sentinel on a mismatch. -/
theorem decryptToken_long_spec (C : CryptoPrimitives) {pub priv : Bytes}
    (G : GoodCrypto C pub priv) (aesKey secret rkey sig2 ct2 : Bytes) (r1 r2 : ℚ)
    (hrk : rkey.length = 16) (hrkB : IsBytes rkey)
    (hr1a : 0 ≤ r1) (hr1b : r1 < 1) (hr2a : 0 ≤ r2) (hr2b : r2 < 1)
    (hsig2 : sig2.length = 20) :
    decryptToken C aesKey priv secret
      (C.rsaEncrypt pub rkey ++ [intToByte (randomPoint 128 r1), intToByte (randomPoint 128 r2)] ++
        sig2 ++ ct2) =
      match cbcDecrypt C rkey (longIV C pub rkey r1 r2) ct2 with
      | none => .error .cipherError
      | some p => if sig2 = C.hmacSha1 secret p then .ok p else .ok [] := by
  have hek := G.rsa_length rkey hrk
  obtain ⟨hp1a, hp1b⟩ := randomPoint_bounds r1 hr1a hr1b
  obtain ⟨hp2a, hp2b⟩ := randomPoint_bounds r2 hr2a hr2b
  obtain ⟨hs1, hs2, hs3, hs4⟩ := longToken_slices (C.rsaEncrypt pub rkey)
    [intToByte (randomPoint 128 r1), intToByte (randomPoint 128 r2)] sig2 ct2 hek rfl hsig2
  have hb1 : intToByte (randomPoint 128 r1) < 128 := by
    unfold intToByte
    omega
  have hb2 : intToByte (randomPoint 128 r2) < 128 := by
    unfold intToByte
    omega
  obtain ⟨hr1e, hr2e⟩ := readInt8_append2 (C.rsaEncrypt pub rkey)
    (intToByte (randomPoint 128 r1)) (intToByte (randomPoint 128 r2)) hek
  rw [if_pos hb1, intToByte_of_range _ hp1a (by omega)] at hr1e
  rw [if_pos hb2, intToByte_of_range _ hp2a (by omega)] at hr2e
  have hlen : (C.rsaEncrypt pub rkey ++
      [intToByte (randomPoint 128 r1), intToByte (randomPoint 128 r2)] ++
      sig2 ++ ct2).length = 150 + ct2.length := by
    simp [hek, hsig2]
    omega
  unfold decryptToken
  rw [if_neg (by omega)]
  dsimp only
  rw [hs1, hs4, hr1e, hr2e, G.rsa_roundtrip rkey hrk hrkB, hs3]
  dsimp only
  have hfold : subarray (C.rsaEncrypt pub rkey) (randomPoint 128 r1) (randomPoint 128 r1 + 8) ++
      subarray (C.rsaEncrypt pub rkey) (randomPoint 128 r2) (randomPoint 128 r2 + 8) =
      longIV C pub rkey r1 r2 := rfl
  rw [hfold, hs2]

/-! ## Concrete sample values -/

set_option maxRecDepth 8192

deriving instance DecidableEq for Except

theorem randomPoint_zero : randomPoint 128 0 = 0 := by
  simp [randomPoint]

/-- Sample long-token field set. -/
def sampleOpts : TokenOptions := ⟨15, 5, 100, some 1, some 2, 3⟩

/-- Its 23-byte plaintext. -/
def samplePlain : Bytes := longPlain 15 5 100 1 2 3

/-- Sample ephemeral AES key (`crypto.randomBytes(16)` draw). -/
def sampleRkey : Bytes := List.replicate 16 7

/-- The RSA block of the sample token under `modelCrypto`. -/
def sampleEk : Bytes := modelCrypto.rsaEncrypt [] sampleRkey

/-- The derived IV with both points equal to 0. -/
def sampleIVd : Bytes := subarray sampleEk 0 8 ++ subarray sampleEk 0 8

/-- The AES-CBC body of the sample token. -/
def sampleCt : Bytes :=
  cbcEncryptBlocks modelCrypto sampleRkey sampleIVd (chunks16 (pkcs7pad samplePlain))

/-- The sample long wire token (before base64). -/
def sampleLongToken : Bytes := sampleEk ++ [0, 0] ++ modelCrypto.hmacSha1 [] samplePlain ++ sampleCt

theorem sampleIVd_eq : longIV modelCrypto [] sampleRkey 0 0 = sampleIVd := by
  unfold longIV sampleIVd
  rw [randomPoint_zero]
  norm_num
  rfl

theorem sampleCt_enc :
    cbcEncrypt modelCrypto sampleRkey (longIV modelCrypto [] sampleRkey 0 0) samplePlain =
      some sampleCt := by
  rw [sampleIVd_eq]
  unfold cbcEncrypt
  rw [if_pos ⟨by decide, by decide⟩]
  rfl

theorem sampleLongToken_produced :
    generateToken modelCrypto [] sampleRkey 0 0 (some ⟨[], []⟩) sampleOpts =
      .ok (some (b64encode sampleLongToken)) := by
  obtain ⟨ct, hct, hgen⟩ := generateToken_long_eq modelCrypto (modelCrypto_good [] []) []
    [] sampleRkey 0 0 sampleOpts 1 2 rfl rfl (by decide) (by decide) (by decide) (by decide)
    (by decide) (by decide) (by decide) (by decide) rfl (by decide) (by decide) (by decide)
    (by decide)
  have hct2 : cbcEncrypt modelCrypto sampleRkey (longIV modelCrypto [] sampleRkey 0 0)
      samplePlain = some ct := hct
  have hctEq : ct = sampleCt := by
    rw [sampleCt_enc] at hct2
    exact (Option.some.inj hct2).symm
  subst hctEq
  rw [hgen]
  have htok : longTokenBytes modelCrypto [] [] sampleRkey 0 0
      (longPlain sampleOpts.system_type sampleOpts.token_type sampleOpts.pid 1 2
        sampleOpts.expire_time) sampleCt = sampleLongToken := by
    unfold longTokenBytes sampleLongToken
    rw [randomPoint_zero]
    rfl
  rw [htok]

/-! ## Claim theorems -/

/-- C1.  Long-token round trip: under the `node:crypto`/`node-rsa` laws
(`GoodCrypto`), for every long field set in range — with the nonzero
`access_level`/`title_id` the encoder's validation gate lets through (the
zero case is C2's subject) — every matching RSA key pair, HMAC secret,
ephemeral AES-key draw and pair of `Math.random` draws, decoding the
produced wire token with the matching private key and the same secret
recovers exactly the encoded fields:
`unpackToken (decryptToken (base64decode (generateToken opts F))) = F`. -/
theorem C1_long_roundtrip (C : CryptoPrimitives) (pub priv : Bytes)
    (G : GoodCrypto C pub priv) (secret aesKey rkey : Bytes) (r1 r2 : ℚ)
    (opts : TokenOptions) (al tid : Nat)
    (hal : opts.access_level = some al) (htid : opts.title_id = some tid)
    (hal0 : al ≠ 0) (htid0 : tid ≠ 0)
    (hst : opts.system_type < 256) (htt : opts.token_type < 256)
    (hpid : opts.pid < 4294967296) (halR : al < 256)
    (htidR : tid < 18446744073709551616) (hexp : opts.expire_time < 18446744073709551616)
    (hrk : rkey.length = 16) (hrkB : IsBytes rkey)
    (hr1a : 0 ≤ r1) (hr1b : r1 < 1) (hr2a : 0 ≤ r2) (hr2b : r2 < 1) :
    ∃ s : List Nat,
      generateToken C aesKey rkey r1 r2 (some ⟨pub, secret⟩) opts = .ok (some s) ∧
      (decryptToken C aesKey priv secret (b64decode s) >>= unpackToken) =
        .ok ⟨opts.system_type, opts.token_type, opts.pid, some al, some tid,
          opts.expire_time⟩ := by
  obtain ⟨ct, hct, hgen⟩ := generateToken_long_eq C G secret aesKey rkey r1 r2 opts al tid
    hal htid hal0 htid0 hst htt hpid halR htidR hexp hrk hr1a hr1b hr2a hr2b
  refine ⟨_, hgen, ?_⟩
  have hplainB : IsBytes (longPlain opts.system_type opts.token_type opts.pid al tid
      opts.expire_time) := longPlain_isBytes _ _ _ _ _ _ hst htt halR
  have hctB : IsBytes ct := cbcEncrypt_isBytes G _ _ _ _ (longIV_isBytes C G rkey r1 r2)
    hplainB hct
  have htokB : IsBytes (longTokenBytes C pub secret rkey r1 r2
      (longPlain opts.system_type opts.token_type opts.pid al tid opts.expire_time) ct) :=
    longTokenBytes_isBytes C G secret rkey _ ct r1 r2 hctB
  rw [b64decode_b64encode _ htokB,
    decryptToken_long_roundtrip C G aesKey secret rkey _ ct r1 r2 hrk hrkB hr1a hr1b hr2a
      hr2b hct]
  simp only [Bind.bind, Except.bind]
  exact unpackToken_long _ _ _ _ _ _ hst htt hpid halR htidR hexp

/-- Witness for C1 at concrete inputs: the sample field set, `modelCrypto`,
zero `Math.random` draws. -/
theorem C1_long_roundtrip_witness :
    generateToken modelCrypto [] sampleRkey 0 0 (some ⟨[], []⟩) sampleOpts =
      .ok (some (b64encode sampleLongToken)) ∧
    (decryptToken modelCrypto [] [] [] (b64decode (b64encode sampleLongToken)) >>=
      unpackToken) = .ok ⟨15, 5, 100, some 1, some 2, 3⟩ := by
  obtain ⟨s, hgen, hdec⟩ := C1_long_roundtrip modelCrypto [] [] (modelCrypto_good [] [])
    [] [] sampleRkey 0 0 sampleOpts 1 2 rfl rfl (by decide) (by decide) (by decide)
    (by decide) (by decide) (by decide) (by decide) (by decide) rfl (by decide)
    (by decide) (by decide) (by decide) (by decide)
  have hs : s = b64encode sampleLongToken := by
    have h2 := sampleLongToken_produced
    rw [hgen] at h2
    exact Option.some.inj (Except.ok.inj h2)
  subst hs
  exact ⟨sampleLongToken_produced, hdec⟩

/-- C2 (code bug).  The validation gate tests JavaScript truthiness, not
presence: with crypto material supplied and `access_level`/`title_id`
present but zero — the legitimate values of the spec's password-reset
scenario, and the values `sendForgotPasswordEmail` itself passes
(`title_id: BigInt(0)`) — `generateToken` returns the source's `null`
(ValidationFailure) instead of producing a wire token.  The claim's
"missing"-only reading holds for `none`, but fails for present zeros. -/
theorem C2_zero_fields_rejected :
    generateToken modelCrypto [] sampleRkey 0 0 (some ⟨[], []⟩)
      ⟨15, 5, 100000, some 0, some 0, 1700000000000⟩ = .ok none ∧
    generateToken modelCrypto [] sampleRkey 0 0 (some ⟨[], []⟩)
      ⟨15, 5, 100000, some 3, some 0, 1700000000000⟩ = .ok none ∧
    generateToken modelCrypto [] sampleRkey 0 0 (some ⟨[], []⟩)
      ⟨15, 5, 100000, none, some 2, 1700000000000⟩ = .ok none :=
  ⟨rfl, rfl, rfl⟩

/-- C5.  Short-token round trip and layout: with no crypto material,
`generateToken` builds exactly the 14-byte plaintext `[system_type,
token_type] ++ pid (4-byte LE at offset 2) ++ expire_time (8-byte LE at
offset 6)`, encrypts it with AES-128-CBC under the service key and an
all-zero 16-byte IV, and base64-encodes the ciphertext; decoding that
token under the same key recovers exactly the fields. -/
theorem C5_short_roundtrip (C : CryptoPrimitives) (pub priv : Bytes)
    (G : GoodCrypto C pub priv) (aesKey privKey secretKey rkey : Bytes) (r1 r2 : ℚ)
    (opts : TokenOptions)
    (hst : opts.system_type < 256) (htt : opts.token_type < 256)
    (hpid : opts.pid < 4294967296) (hexp : opts.expire_time < 18446744073709551616)
    (hkey : aesKey.length = 16) :
    ∃ s ct : List Nat,
      generateToken C aesKey rkey r1 r2 none opts = .ok (some s) ∧
      shortDataBuffer opts.system_type opts.token_type opts.pid opts.expire_time =
        .ok ([opts.system_type, opts.token_type] ++ u32le opts.pid ++
          u64le opts.expire_time) ∧
      cbcEncrypt C aesKey (List.replicate 16 0)
        ([opts.system_type, opts.token_type] ++ u32le opts.pid ++ u64le opts.expire_time) =
        some ct ∧
      s = b64encode ct ∧
      (decryptToken C aesKey privKey secretKey (b64decode s) >>= unpackToken) =
        .ok ⟨opts.system_type, opts.token_type, opts.pid, none, none,
          opts.expire_time⟩ := by
  obtain ⟨ct, hct, hgen⟩ := generateToken_short_eq C aesKey rkey r1 r2 opts hst htt hpid
    hexp hkey
  refine ⟨_, ct, hgen, shortDataBuffer_eq _ _ _ _ hst htt hpid hexp, hct, rfl, ?_⟩
  have hplainB := shortPlain_isBytes opts.system_type opts.token_type opts.pid
    opts.expire_time hst htt
  have hctB : IsBytes ct := cbcEncrypt_isBytes G _ _ _ _
    (isBytes_replicate _ _ (by omega)) hplainB hct
  rw [b64decode_b64encode _ hctB,
    decryptToken_short_roundtrip C G aesKey privKey secretKey _ ct
      (shortPlain_length _ _ _ _) hct]
  simp only [Bind.bind, Except.bind]
  exact unpackToken_short _ _ _ _ hst htt hpid hexp

/-- Witness for C5 at the spec's concrete scenario: `system_type = 0x0F`,
`token_type = 0x05`, `pid = 100000`, `expire_time = 1700000000000`, all-zero
16-byte AES key. -/
theorem C5_short_roundtrip_witness :
    ∃ s ct : List Nat,
      generateToken modelCrypto (List.replicate 16 0) [] 0 0 none
        ⟨15, 5, 100000, none, none, 1700000000000⟩ = .ok (some s) ∧
      shortDataBuffer 15 5 100000 1700000000000 =
        .ok ([15, 5] ++ u32le 100000 ++ u64le 1700000000000) ∧
      cbcEncrypt modelCrypto (List.replicate 16 0) (List.replicate 16 0)
        ([15, 5] ++ u32le 100000 ++ u64le 1700000000000) = some ct ∧
      s = b64encode ct ∧
      (decryptToken modelCrypto (List.replicate 16 0) [] [] (b64decode s) >>= unpackToken) =
        .ok ⟨15, 5, 100000, none, none, 1700000000000⟩ :=
  C5_short_roundtrip modelCrypto [] [] (modelCrypto_good [] []) (List.replicate 16 0)
    [] [] [] 0 0 ⟨15, 5, 100000, none, none, 1700000000000⟩ (by decide) (by decide)
    (by decide) (by decide) (by decide)

/-- The IV recomputed by `decryptToken` from a wire token: the expression
bound to `iv` in the long branch of the source (slice `cryptoConfig =
token[0:0x82]`, its first 128 bytes, the two point bytes read as signed
ints at 0x80/0x81, and the two 8-byte windows). -/
def decodeIV (token : Bytes) : Option Bytes :=
  match readInt8 (subarray token 0 130) 128, readInt8 (subarray token 0 130) 129 with
  | some point1, some point2 =>
      some (subarray (subarray (subarray token 0 130) 0 128) point1 (point1 + 8) ++
        subarray (subarray (subarray token 0 130) 0 128) point2 (point2 + 8))
  | _, _ => none

/-- C6.  Long wire layout and IV derivation: every produced long token is
`rsa_ciphertext (128 bytes) ++ [point1, point2] ++ hmac_sha1 (20 bytes) ++
aes_ciphertext` — components at offsets 0x00, 0x80, 0x81, 0x82 and 0x96 —
both points lie in `[0, 120)` so the two 8-byte windows stay inside the
128-byte RSA ciphertext, and the decode side recomputes exactly the
encode-side IV `ciphertext[p1 : p1+8] ++ ciphertext[p2 : p2+8]`. -/
theorem C6_long_layout (C : CryptoPrimitives) (pub priv : Bytes)
    (G : GoodCrypto C pub priv) (secret aesKey rkey : Bytes) (r1 r2 : ℚ)
    (opts : TokenOptions) (al tid : Nat)
    (hal : opts.access_level = some al) (htid : opts.title_id = some tid)
    (hal0 : al ≠ 0) (htid0 : tid ≠ 0)
    (hst : opts.system_type < 256) (htt : opts.token_type < 256)
    (hpid : opts.pid < 4294967296) (halR : al < 256)
    (htidR : tid < 18446744073709551616) (hexp : opts.expire_time < 18446744073709551616)
    (hrk : rkey.length = 16) (hrkB : IsBytes rkey)
    (hr1a : 0 ≤ r1) (hr1b : r1 < 1) (hr2a : 0 ≤ r2) (hr2b : r2 < 1) :
    ∃ s ct : List Nat,
      generateToken C aesKey rkey r1 r2 (some ⟨pub, secret⟩) opts = .ok (some s) ∧
      cbcEncrypt C rkey (longIV C pub rkey r1 r2)
        (longPlain opts.system_type opts.token_type opts.pid al tid opts.expire_time) =
        some ct ∧
      b64decode s = C.rsaEncrypt pub rkey ++
        [intToByte (randomPoint 128 r1), intToByte (randomPoint 128 r2)] ++
        C.hmacSha1 secret
          (longPlain opts.system_type opts.token_type opts.pid al tid opts.expire_time) ++
        ct ∧
      (C.rsaEncrypt pub rkey).length = 128 ∧
      (C.hmacSha1 secret
        (longPlain opts.system_type opts.token_type opts.pid al tid opts.expire_time)).length
        = 20 ∧
      0 ≤ randomPoint 128 r1 ∧ randomPoint 128 r1 < 120 ∧
      0 ≤ randomPoint 128 r2 ∧ randomPoint 128 r2 < 120 ∧
      longIV C pub rkey r1 r2 =
        subarray (C.rsaEncrypt pub rkey) (randomPoint 128 r1) (randomPoint 128 r1 + 8) ++
          subarray (C.rsaEncrypt pub rkey) (randomPoint 128 r2) (randomPoint 128 r2 + 8) ∧
      decodeIV (b64decode s) = some (longIV C pub rkey r1 r2) := by
  obtain ⟨ct, hct, hgen⟩ := generateToken_long_eq C G secret aesKey rkey r1 r2 opts al tid
    hal htid hal0 htid0 hst htt hpid halR htidR hexp hrk hr1a hr1b hr2a hr2b
  have hek := G.rsa_length rkey hrk
  obtain ⟨hp1a, hp1b⟩ := randomPoint_bounds r1 hr1a hr1b
  obtain ⟨hp2a, hp2b⟩ := randomPoint_bounds r2 hr2a hr2b
  have hsig := G.hmac_length secret
    (longPlain opts.system_type opts.token_type opts.pid al tid opts.expire_time)
  have hplainB : IsBytes (longPlain opts.system_type opts.token_type opts.pid al tid
      opts.expire_time) := longPlain_isBytes _ _ _ _ _ _ hst htt halR
  have hctB : IsBytes ct := cbcEncrypt_isBytes G _ _ _ _ (longIV_isBytes C G rkey r1 r2)
    hplainB hct
  have htokB : IsBytes (longTokenBytes C pub secret rkey r1 r2
      (longPlain opts.system_type opts.token_type opts.pid al tid opts.expire_time) ct) :=
    longTokenBytes_isBytes C G secret rkey _ ct r1 r2 hctB
  have hdecode : b64decode (b64encode (longTokenBytes C pub secret rkey r1 r2
      (longPlain opts.system_type opts.token_type opts.pid al tid opts.expire_time) ct)) =
      longTokenBytes C pub secret rkey r1 r2
        (longPlain opts.system_type opts.token_type opts.pid al tid opts.expire_time) ct :=
    b64decode_b64encode _ htokB
  refine ⟨_, ct, hgen, hct, ?_, hek, hsig, hp1a, hp1b, hp2a, hp2b, rfl, ?_⟩
  · rw [hdecode]
    rfl
  · rw [hdecode]
    obtain ⟨hs1, _, _, hs4⟩ := longToken_slices (C.rsaEncrypt pub rkey)
      [intToByte (randomPoint 128 r1), intToByte (randomPoint 128 r2)]
      (C.hmacSha1 secret
        (longPlain opts.system_type opts.token_type opts.pid al tid opts.expire_time))
      ct hek rfl hsig
    have hb1 : intToByte (randomPoint 128 r1) < 128 := by
      unfold intToByte
      omega
    have hb2 : intToByte (randomPoint 128 r2) < 128 := by
      unfold intToByte
      omega
    obtain ⟨hr1e, hr2e⟩ := readInt8_append2 (C.rsaEncrypt pub rkey)
      (intToByte (randomPoint 128 r1)) (intToByte (randomPoint 128 r2)) hek
    rw [if_pos hb1, intToByte_of_range _ hp1a (by omega)] at hr1e
    rw [if_pos hb2, intToByte_of_range _ hp2a (by omega)] at hr2e
    unfold decodeIV longTokenBytes
    rw [hs1, hs4, hr1e, hr2e]
    rfl

/-- Witness for C6 at concrete inputs. -/
theorem C6_long_layout_witness :
    ∃ s ct : List Nat,
      generateToken modelCrypto [] sampleRkey 0 0 (some ⟨[], []⟩) sampleOpts =
        .ok (some s) ∧
      cbcEncrypt modelCrypto sampleRkey (longIV modelCrypto [] sampleRkey 0 0)
        (longPlain 15 5 100 1 2 3) = some ct ∧
      b64decode s = modelCrypto.rsaEncrypt [] sampleRkey ++
        [intToByte (randomPoint 128 0), intToByte (randomPoint 128 0)] ++
        modelCrypto.hmacSha1 [] (longPlain 15 5 100 1 2 3) ++ ct ∧
      (modelCrypto.rsaEncrypt [] sampleRkey).length = 128 ∧
      (modelCrypto.hmacSha1 [] (longPlain 15 5 100 1 2 3)).length = 20 ∧
      0 ≤ randomPoint 128 0 ∧ randomPoint 128 0 < 120 ∧
      0 ≤ randomPoint 128 0 ∧ randomPoint 128 0 < 120 ∧
      longIV modelCrypto [] sampleRkey 0 0 =
        subarray (modelCrypto.rsaEncrypt [] sampleRkey) (randomPoint 128 0)
          (randomPoint 128 0 + 8) ++
        subarray (modelCrypto.rsaEncrypt [] sampleRkey) (randomPoint 128 0)
          (randomPoint 128 0 + 8) ∧
      decodeIV (b64decode s) = some (longIV modelCrypto [] sampleRkey 0 0) :=
  C6_long_layout modelCrypto [] [] (modelCrypto_good [] []) [] [] sampleRkey 0 0
    sampleOpts 1 2 rfl rfl (by decide) (by decide) (by decide) (by decide) (by decide)
    (by decide) (by decide) (by decide) rfl (by decide) (by decide) (by decide)
    (by decide) (by decide)

/-- C3.  Integrity failure is a result value: for a long wire token of the
produced shape whose AES decryption succeeds with plaintext `p` but whose
recomputed HMAC-SHA1 differs from the 20 bytes transmitted at offset 0x82
(for example, a token decoded with a mismatched HMAC secret),
`decryptToken` returns the source's `Buffer.alloc(0)` sentinel — the
normal value `.ok []`, never a thrown error — which is distinguishable
from the successful decode `.ok p` whenever `p` is nonempty. -/
theorem C3_integrity_failure_is_result (C : CryptoPrimitives) (pub priv : Bytes)
    (G : GoodCrypto C pub priv) (aesKey secret rkey sig2 ct2 p : Bytes) (r1 r2 : ℚ)
    (hrk : rkey.length = 16) (hrkB : IsBytes rkey)
    (hr1a : 0 ≤ r1) (hr1b : r1 < 1) (hr2a : 0 ≤ r2) (hr2b : r2 < 1)
    (hsig2 : sig2.length = 20)
    (hdec : cbcDecrypt C rkey (longIV C pub rkey r1 r2) ct2 = some p)
    (hne : sig2 ≠ C.hmacSha1 secret p) :
    decryptToken C aesKey priv secret
      (C.rsaEncrypt pub rkey ++
        [intToByte (randomPoint 128 r1), intToByte (randomPoint 128 r2)] ++ sig2 ++ ct2) =
      .ok [] ∧
    (∀ e : JsError, (Except.ok [] : Except JsError Bytes) ≠ .error e) ∧
    (p ≠ [] → (Except.ok [] : Except JsError Bytes) ≠ .ok p) := by
  refine ⟨?_, fun e h => Except.noConfusion h, fun hp h => hp (Except.ok.inj h).symm⟩
  rw [decryptToken_long_spec C G aesKey secret rkey sig2 ct2 r1 r2 hrk hrkB hr1a hr1b
    hr2a hr2b hsig2, hdec]
  dsimp only
  rw [if_neg hne]

/-- Witness for C3: the sample token's body decoded with the mismatched
HMAC secret `[1]` (the signature was produced with secret `[]`). -/
theorem C3_integrity_failure_is_result_witness :
    decryptToken modelCrypto [] [] [1]
      (modelCrypto.rsaEncrypt [] sampleRkey ++
        [intToByte (randomPoint 128 0), intToByte (randomPoint 128 0)] ++
        modelCrypto.hmacSha1 [] samplePlain ++ sampleCt) = .ok [] ∧
    (∀ e : JsError, (Except.ok [] : Except JsError Bytes) ≠ .error e) ∧
    (samplePlain ≠ [] → (Except.ok [] : Except JsError Bytes) ≠ .ok samplePlain) :=
  C3_integrity_failure_is_result modelCrypto [] [] (modelCrypto_good [] []) [] [1]
    sampleRkey (modelCrypto.hmacSha1 [] samplePlain) sampleCt samplePlain 0 0 rfl
    (by decide) (by decide) (by decide) (by decide) (by decide) (by decide)
    (by rw [sampleIVd_eq]; decide) (by decide)

/-- C4 (amended).  Tamper sensitivity of a produced long token: flipping
any single bit in the signature region (offsets 0x82–0x95) makes
`decryptToken` return IntegrityFailure (the `.ok []` sentinel) and the
pipeline never yields the original fields; flipping a bit in the
encrypted-body region (offset 0x96 on) never lets the pipeline yield any
field set — given HMAC collision-freedom at the token's plaintext — but it
may surface as a thrown padding error rather than IntegrityFailure
(`C4_tamper_counterexample`). -/
theorem C4_tamper_amended (C : CryptoPrimitives) (pub priv : Bytes)
    (G : GoodCrypto C pub priv) (aesKey secret rkey plain ct : Bytes) (r1 r2 : ℚ)
    (i k : Nat)
    (hrk : rkey.length = 16) (hrkB : IsBytes rkey)
    (hr1a : 0 ≤ r1) (hr1b : r1 < 1) (hr2a : 0 ≤ r2) (hr2b : r2 < 1)
    (hct : cbcEncrypt C rkey (longIV C pub rkey r1 r2) plain = some ct) :
    (130 ≤ i → i < 150 →
      decryptToken C aesKey priv secret
          (flipBit (longTokenBytes C pub secret rkey r1 r2 plain ct) i k) = .ok [] ∧
      decodePipeline C aesKey priv secret
          (flipBit (longTokenBytes C pub secret rkey r1 r2 plain ct) i k) =
        .error .rangeError) ∧
    (150 ≤ i → i < 150 + ct.length →
      (∀ m, C.hmacSha1 secret m = C.hmacSha1 secret plain → m = plain) →
      ∃ e, decodePipeline C aesKey priv secret
          (flipBit (longTokenBytes C pub secret rkey r1 r2 plain ct) i k) = .error e) := by
  have hek := G.rsa_length rkey hrk
  have hsiglen := G.hmac_length secret plain
  have hdecp : cbcDecrypt C rkey (longIV C pub rkey r1 r2) ct = some plain :=
    cbcDecrypt_cbcEncrypt G _ _ _ _ hct
  have hlen130 : (C.rsaEncrypt pub rkey ++
      [intToByte (randomPoint 128 r1), intToByte (randomPoint 128 r2)]).length = 130 := by
    simp [hek]
  have hlen150 : (C.rsaEncrypt pub rkey ++
      [intToByte (randomPoint 128 r1), intToByte (randomPoint 128 r2)] ++
      C.hmacSha1 secret plain).length = 150 := by
    simp [hek, hsiglen]
  constructor
  · intro hi1 hi2
    have hflip : flipBit (longTokenBytes C pub secret rkey r1 r2 plain ct) i k =
        C.rsaEncrypt pub rkey ++
          [intToByte (randomPoint 128 r1), intToByte (randomPoint 128 r2)] ++
          flipBit (C.hmacSha1 secret plain) (i - 130) k ++ ct := by
      unfold longTokenBytes
      rw [flipBit_append_left _ _ _ _ (by rw [hlen150]; omega),
        flipBit_append_right _ _ _ _ (by rw [hlen130]; omega), hlen130]
    rw [hflip]
    have hdecOk : decryptToken C aesKey priv secret
        (C.rsaEncrypt pub rkey ++
          [intToByte (randomPoint 128 r1), intToByte (randomPoint 128 r2)] ++
          flipBit (C.hmacSha1 secret plain) (i - 130) k ++ ct) = .ok [] := by
      rw [decryptToken_long_spec C G aesKey secret rkey
        (flipBit (C.hmacSha1 secret plain) (i - 130) k) ct r1 r2 hrk hrkB hr1a hr1b hr2a
        hr2b (by rw [flipBit_length, hsiglen]), hdecp]
      dsimp only
      rw [if_neg (flipBit_ne _ _ k (by rw [hsiglen]; omega))]
    refine ⟨hdecOk, ?_⟩
    unfold decodePipeline
    rw [hdecOk]
    rfl
  · intro hi1 hi2 hcol
    have hflip : flipBit (longTokenBytes C pub secret rkey r1 r2 plain ct) i k =
        C.rsaEncrypt pub rkey ++
          [intToByte (randomPoint 128 r1), intToByte (randomPoint 128 r2)] ++
          C.hmacSha1 secret plain ++ flipBit ct (i - 150) k := by
      unfold longTokenBytes
      rw [flipBit_append_right _ _ _ _ (by rw [hlen150]; omega), hlen150]
    rw [hflip]
    have hctne : flipBit ct (i - 150) k ≠ ct := flipBit_ne _ _ _ (by omega)
    unfold decodePipeline
    rw [decryptToken_long_spec C G aesKey secret rkey (C.hmacSha1 secret plain)
      (flipBit ct (i - 150) k) r1 r2 hrk hrkB hr1a hr1b hr2a hr2b hsiglen]
    cases hdec2 : cbcDecrypt C rkey (longIV C pub rkey r1 r2) (flipBit ct (i - 150) k) with
    | none => exact ⟨.cipherError, rfl⟩
    | some p =>
      dsimp only
      by_cases hif : C.hmacSha1 secret plain = C.hmacSha1 secret p
      · exfalso
        have hp : p = plain := hcol p hif.symm
        subst hp
        have henc2 := cbcEncrypt_of_cbcDecrypt G _ _ _ _ hdec2
        rw [hct] at henc2
        exact hctne (Option.some.inj henc2).symm
      · rw [if_neg hif]
        exact ⟨.rangeError, rfl⟩

/-- C4 is false as stated: flipping bit 0 of byte 181 — inside the
encrypted-body region — of the produced sample long token corrupts the
PKCS#7 padding, so `decryptToken` throws a cipher error; it does not
return IntegrityFailure (the `.ok []` sentinel). -/
theorem C4_tamper_counterexample :
    generateToken modelCrypto (List.replicate 16 0) sampleRkey 0 0 (some ⟨[], []⟩)
      sampleOpts = .ok (some (b64encode sampleLongToken)) ∧
    sampleLongToken.length = 182 ∧
    decryptToken modelCrypto [] [] [] (flipBit sampleLongToken 181 0) =
      .error .cipherError ∧
    decryptToken modelCrypto [] [] [] (flipBit sampleLongToken 181 0) ≠ .ok [] :=
  ⟨sampleLongToken_produced, by decide, by decide, by decide⟩

/-- The AES-CBC body of the sample token under `pointCrypto samplePlain`. -/
def sampleCtP : Bytes :=
  cbcEncryptBlocks (pointCrypto samplePlain) sampleRkey sampleIVd
    (chunks16 (pkcs7pad samplePlain))

/-- Witness for C4 (amended) at concrete inputs: a signature-region flip at
byte 135 and a body-region flip at byte 150 of the sample token, under the
collision-free-at-`samplePlain` instance `pointCrypto samplePlain`. -/
theorem C4_tamper_amended_witness :
    decryptToken (pointCrypto samplePlain) [] [] []
        (flipBit (longTokenBytes (pointCrypto samplePlain) [] [] sampleRkey 0 0
          samplePlain sampleCtP) 135 0) = .ok [] ∧
    (∃ e, decodePipeline (pointCrypto samplePlain) [] [] []
        (flipBit (longTokenBytes (pointCrypto samplePlain) [] [] sampleRkey 0 0
          samplePlain sampleCtP) 150 0) = .error e) := by
  have hiv : longIV (pointCrypto samplePlain) [] sampleRkey 0 0 = sampleIVd := by
    unfold longIV sampleIVd
    rw [randomPoint_zero]
    norm_num
    rfl
  have hct : cbcEncrypt (pointCrypto samplePlain) sampleRkey
      (longIV (pointCrypto samplePlain) [] sampleRkey 0 0) samplePlain = some sampleCtP := by
    rw [hiv]
    unfold cbcEncrypt
    rw [if_pos ⟨by decide, by decide⟩]
    rfl
  have h1 := C4_tamper_amended (pointCrypto samplePlain) [] []
    (pointCrypto_good samplePlain [] []) [] [] sampleRkey samplePlain sampleCtP 0 0 135 0
    rfl (by decide) (by decide) (by decide) (by decide) (by decide) hct
  have h2 := C4_tamper_amended (pointCrypto samplePlain) [] []
    (pointCrypto_good samplePlain [] []) [] [] sampleRkey samplePlain sampleCtP 0 0 150 0
    rfl (by decide) (by decide) (by decide) (by decide) (by decide) hct
  exact ⟨(h1.1 (by omega) (by omega)).1,
    h2.2 (by omega) (by decide) (fun m hm => pointCrypto_hmac_inj samplePlain [] m hm)⟩

/-- The sample token with its signature field replaced by zeros (a forged
signature). -/
def sampleForgedToken : Bytes := sampleEk ++ [0, 0] ++ List.replicate 20 0 ++ sampleCt

/-- C7 (code bug).  The decode pipeline can crash: on a long token whose
signature does not match (a forged token), `decryptToken` returns the empty
sentinel and `unpackToken` then reads out of bounds (`readUInt8` at offset
0 of an empty buffer — a thrown RangeError); and a short input that fails
unpadding makes `decryptToken` itself throw.  The claim says the pipeline
always returns recovered fields or a documented failure value, never an
exception or an out-of-bounds read. -/
theorem C7_pipeline_crash :
    decryptToken modelCrypto [] [] [] sampleForgedToken = .ok [] ∧
    unpackToken [] = .error .rangeError ∧
    decodePipeline modelCrypto [] [] [] sampleForgedToken = .error .rangeError ∧
    decryptToken modelCrypto (List.replicate 16 0) [] [] (List.replicate 16 0) =
      .error .cipherError :=
  ⟨by decide, rfl, by decide, by decide⟩

/-- C8.  NintendoBase64 bijection: encode is standard base64 followed by
the substitutions `'+'→'.'`, `'/'→'-'`, `'='→'*'`; decode applies the
inverse substitutions and then standard base64 decoding; and for every
byte sequence, decode ∘ encode is the identity. -/
theorem C8_nintendoBase64 (b : Bytes) (h : IsBytes b) :
    nintendoBase64Decode (nintendoBase64Encode b) = b ∧
    nintendoBase64Encode b = (b64encode b).map nintendoSubst ∧
    (∀ s : List Nat, nintendoBase64Decode s = b64decode (s.map nintendoUnsubst)) :=
  ⟨nintendoBase64Decode_nintendoBase64Encode b h, rfl, fun _ => rfl⟩

/-- Witness for C8 on the empty sequence and an all-`0xFF` sequence. -/
theorem C8_nintendoBase64_witness :
    IsBytes ([] : Bytes) ∧ nintendoBase64Decode (nintendoBase64Encode []) = [] ∧
    IsBytes [255, 255, 255, 255] ∧
    nintendoBase64Decode (nintendoBase64Encode [255, 255, 255, 255]) =
      [255, 255, 255, 255] :=
  ⟨by decide, (C8_nintendoBase64 [] (by decide)).1, by decide,
    (C8_nintendoBase64 [255, 255, 255, 255] (by decide)).1⟩

/-- C9.  PasswordHasher: for every password (as Unicode code points) and
every pid below 2³², the hash is the lowercase-hex rendering of SHA-256
over `pid (4-byte LE) ++ [0x02, 0x65, 0x43, 0x46] ++ UTF-8(password)`; the
function is pure, so repeated calls with identical inputs return identical
output. -/
theorem C9_passwordHash (C : CryptoPrimitives) (password : List Nat) (pid : Nat)
    (h : pid < 4294967296) :
    nintendoPasswordHash C password pid =
      .ok (toHex (C.sha256 (u32le pid ++ [2, 101, 67, 70] ++ utf8Encode password))) ∧
    nintendoPasswordHash C password pid = nintendoPasswordHash C password pid := by
  refine ⟨?_, rfl⟩
  unfold nintendoPasswordHash
  have hw : writeUInt32LE (List.replicate 4 0) pid 0 = .ok (u32le pid) := by
    unfold writeUInt32LE
    rw [if_pos ⟨h, by decide⟩]
    simp [writeBytes, u32le, List.replicate]
  rw [hw]
  rfl

/-- Witness for C9 at a concrete password and pid. -/
theorem C9_passwordHash_witness :
    nintendoPasswordHash modelCrypto [97, 98, 99] 1234 =
      .ok (toHex (modelCrypto.sha256 (u32le 1234 ++ [2, 101, 67, 70] ++
        utf8Encode [97, 98, 99]))) ∧
    nintendoPasswordHash modelCrypto [97, 98, 99] 1234 =
      nintendoPasswordHash modelCrypto [97, 98, 99] 1234 :=
  C9_passwordHash modelCrypto [97, 98, 99] 1234 (by decide)

/-- C10.  Produced-token lengths and routing: a produced short token is 16
bytes after base64 decoding (14-byte plaintext padded to one AES block) and
a produced long token is 182 bytes (128 + 2 + 20 + 32); `decryptToken`'s
`length ≤ 32` test therefore routes every produced token back to the path
that produced it. -/
theorem C10_length_routing (C : CryptoPrimitives) (pub priv : Bytes)
    (G : GoodCrypto C pub priv) (secret aesKey rkey : Bytes) (r1 r2 : ℚ)
    (opts : TokenOptions) (al tid : Nat)
    (hal : opts.access_level = some al) (htid : opts.title_id = some tid)
    (hal0 : al ≠ 0) (htid0 : tid ≠ 0)
    (hst : opts.system_type < 256) (htt : opts.token_type < 256)
    (hpid : opts.pid < 4294967296) (halR : al < 256)
    (htidR : tid < 18446744073709551616) (hexp : opts.expire_time < 18446744073709551616)
    (hkey : aesKey.length = 16)
    (hrk : rkey.length = 16) (hrkB : IsBytes rkey)
    (hr1a : 0 ≤ r1) (hr1b : r1 < 1) (hr2a : 0 ≤ r2) (hr2b : r2 < 1) :
    (∀ s, generateToken C aesKey rkey r1 r2 none opts = .ok (some s) →
      (b64decode s).length = 16 ∧ (b64decode s).length ≤ 32) ∧
    (∀ s, generateToken C aesKey rkey r1 r2 (some ⟨pub, secret⟩) opts = .ok (some s) →
      (b64decode s).length = 182 ∧ ¬(b64decode s).length ≤ 32) := by
  constructor
  · intro s hs
    obtain ⟨ct, hct, hgen⟩ := generateToken_short_eq C aesKey rkey r1 r2 opts hst htt
      hpid hexp hkey
    rw [hgen] at hs
    have hseq : s = b64encode ct := (Option.some.inj (Except.ok.inj hs)).symm
    subst hseq
    have hctB : IsBytes ct := cbcEncrypt_isBytes G _ _ _ _
      (isBytes_replicate _ _ (by omega)) (shortPlain_isBytes _ _ _ _ hst htt) hct
    rw [b64decode_b64encode _ hctB]
    have hlen : ct.length = 16 := by
      rw [cbcEncrypt_length G _ _ _ _ hct, shortPlain_length]
    omega
  · intro s hs
    obtain ⟨ct, hct, hgen⟩ := generateToken_long_eq C G secret aesKey rkey r1 r2 opts al
      tid hal htid hal0 htid0 hst htt hpid halR htidR hexp hrk hr1a hr1b hr2a hr2b
    rw [hgen] at hs
    have hseq : s = b64encode (longTokenBytes C pub secret rkey r1 r2
        (longPlain opts.system_type opts.token_type opts.pid al tid opts.expire_time) ct) :=
      (Option.some.inj (Except.ok.inj hs)).symm
    subst hseq
    have hctB : IsBytes ct := cbcEncrypt_isBytes G _ _ _ _ (longIV_isBytes C G rkey r1 r2)
      (longPlain_isBytes _ _ _ _ _ _ hst htt halR) hct
    have htokB := longTokenBytes_isBytes C G secret rkey
      (longPlain opts.system_type opts.token_type opts.pid al tid opts.expire_time) ct
      r1 r2 hctB
    rw [b64decode_b64encode _ htokB]
    have hctlen : ct.length = 32 := by
      rw [cbcEncrypt_length G _ _ _ _ hct, longPlain_length]
    have htoklen := longTokenBytes_length C G secret rkey
      (longPlain opts.system_type opts.token_type opts.pid al tid opts.expire_time) ct
      r1 r2 hrk
    omega

/-- The AES body of the sample field set's short token under an all-zero key. -/
def sampleShortCt : Bytes :=
  cbcEncryptBlocks modelCrypto (List.replicate 16 0) (List.replicate 16 0)
    (chunks16 (pkcs7pad (shortPlain 15 5 100 3)))

/-- Witness for C10 at concrete inputs. -/
theorem C10_length_routing_witness :
    ((b64decode (b64encode sampleShortCt)).length = 16 ∧
      (b64decode (b64encode sampleShortCt)).length ≤ 32) ∧
    ((b64decode (b64encode sampleLongToken)).length = 182 ∧
      ¬(b64decode (b64encode sampleLongToken)).length ≤ 32) := by
  have h := C10_length_routing modelCrypto [] [] (modelCrypto_good [] []) []
    (List.replicate 16 0) sampleRkey 0 0 sampleOpts 1 2 rfl rfl (by decide) (by decide)
    (by decide) (by decide) (by decide) (by decide) (by decide) (by decide) (by decide)
    rfl (by decide) (by decide) (by decide) (by decide) (by decide)
  exact ⟨h.1 (b64encode sampleShortCt) (by decide),
    h.2 (b64encode sampleLongToken) sampleLongToken_produced⟩

end Account
